import Mathlib

/-!
# The drewno_mars unparser

A shallow embedding of the syntax tree of `ast.hpp` and of the rendering rules of
`unparse.cpp`.

* Every C++ node class is a constructor (or a structure) of the same name.
* The output stream is modelled by the text written to it: a rendering function returns
  the `String` that the C++ method appends to `out`, and consecutive writes are `++`.
* The `indent` argument is a `Nat` (the C++ `int` is only ever counted up from the
  caller's depth; a depth below zero writes no tab, like depth zero).
* Source positions are not used by any rendering rule and are left out.
* Child pointers that every rendering rule dereferences are modelled as present children;
  the one pointer the code tests against `nullptr` (`VarDeclNode::myExp`) is an `Option`.
* The constructors of the declaration classes are modelled apart from the tree, with an
  `Option` for every pointer argument that may be null and `none` for a failed `assert`
  (asserts are taken as compiled in).
* Termination is stated on a second copy of the rendering rules that counts the depth of
  nested calls and stops when the count runs out, and on the list of calls each rendering
  method makes (`Node.calls`) against the children of its node (`Node.children`).
-/

namespace drewno_mars

/-! ## Tree model (`ast.hpp`) -/

/-- An identifier: `IDNode` holds the name only. -/
structure IDNode where
  name : String
  deriving DecidableEq

/-- Memory locations: `LocNode` has the two subclasses `IDNode` and `MemberFieldExpNode`. -/
inductive LocNode where
  | ofID (id : IDNode)
  | MemberFieldExpNode (loc : LocNode) (name : IDNode)
  deriving DecidableEq

/-- Expressions: the subclasses of `ExpNode`. `IntLitNode` holds a C++ `int`. -/
inductive ExpNode where
  | CallExpNode (functionName : LocNode) (args : List ExpNode)
  | FalseNode
  | TrueNode
  | MagicNode
  | IntLitNode (value : Int)
  | StrLitNode (str : String)
  | ofLoc (loc : LocNode)
  | NegNode (exp : ExpNode)
  | NotNode (exp : ExpNode)
  | AndNode (lhs rhs : ExpNode)
  | DivideNode (lhs rhs : ExpNode)
  | EqualsNode (lhs rhs : ExpNode)
  | GreaterEqNode (lhs rhs : ExpNode)
  | GreaterNode (lhs rhs : ExpNode)
  | LessNode (lhs rhs : ExpNode)
  | LessEqNode (lhs rhs : ExpNode)
  | MinusNode (lhs rhs : ExpNode)
  | NotEqualsNode (lhs rhs : ExpNode)
  | OrNode (lhs rhs : ExpNode)
  | PlusNode (lhs rhs : ExpNode)
  | TimesNode (lhs rhs : ExpNode)

/-- Types: the subclasses of `TypeNode`. -/
inductive TypeNode where
  | IntTypeNode
  | BoolTypeNode
  | ClassTypeNode (id : IDNode)
  | PerfectTypeNode (type : TypeNode)
  | VoidTypeNode
  deriving DecidableEq

/-- A formal parameter: `FormalDeclNode` is a `VarDeclNode` built without initializer. -/
structure FormalDeclNode where
  myID : IDNode
  myType : TypeNode
  deriving DecidableEq

mutual
/-- Statements: the subclasses of `StmtNode`; `ofDecl` is the subclass `DeclNode`.
`CallStmtNode` holds the two fields of the `CallExpNode` it points to. -/
inductive StmtNode where
  | AssignStmtNode (dest : LocNode) (exp : ExpNode)
  | CallStmtNode (functionName : LocNode) (args : List ExpNode)
  | ExitStmtNode
  | GiveStmtNode (exp : ExpNode)
  | IfElseStmtNode (condition : ExpNode) (trueBranch falseBranch : List StmtNode)
  | IfStmtNode (condition : ExpNode) (stmts : List StmtNode)
  | PostDecStmtNode (loc : LocNode)
  | PostIncStmtNode (loc : LocNode)
  | ReturnStmtNode (exp : ExpNode)
  | TakeStmtNode (loc : LocNode)
  | WhileStmtNode (exp : ExpNode) (stmts : List StmtNode)
  | ofDecl (decl : DeclNode)
/-- Declarations: the subclasses of `DeclNode`. -/
inductive DeclNode where
  | ClassDeclNode (name : IDNode) (decls : List DeclNode)
  | VarDeclNode (myID : IDNode) (myType : TypeNode) (myExp : Option ExpNode)
  | ofFormal (formal : FormalDeclNode)
  | FnDeclNode (type : TypeNode) (id : IDNode) (decls : List FormalDeclNode)
      (stmts : List StmtNode)
end

/-- The root: `ProgramNode` owns the list of global declarations. -/
structure ProgramNode where
  myGlobals : List DeclNode

/-! ## Renderer (`unparse.cpp`) -/

/-- The function `doIndent`: one tab per level. -/
def doIndent : Nat → String
  | 0 => ""
  | indent + 1 => "\t" ++ doIndent indent

/-- The method `IDNode::unparse`. -/
def IDNode.unparse (n : IDNode) (_indent : Nat) : String :=
  n.name

/-- The method `IDNode::nestedUnparse`. -/
def IDNode.nestedUnparse (n : IDNode) (_indent : Nat) : String :=
  n.unparse 0

/-- The methods `IDNode::unparse` and `MemberFieldExpNode::unparse`. -/
def LocNode.unparse : LocNode → Nat → String
  | .ofID id, indent => id.unparse indent
  | .MemberFieldExpNode loc name, _ => loc.unparse 0 ++ "--" ++ name.unparse 0

/-- Operand-position rendering of a location: `IDNode` overrides `nestedUnparse`,
`MemberFieldExpNode` does not and inherits `ExpNode::nestedUnparse`. -/
def LocNode.nestedUnparse : LocNode → Nat → String
  | .ofID id, indent => id.nestedUnparse indent
  | .MemberFieldExpNode loc name, _ =>
      "(" ++ (LocNode.MemberFieldExpNode loc name).unparse 0 ++ ")"

mutual
/-- The `unparse` method of every expression class. -/
def ExpNode.unparse : ExpNode → Nat → String
  | .CallExpNode functionName args, _ =>
      functionName.unparse 0 ++ "(" ++ unparseArgs args true ++ ")"
  | .FalseNode, _ => "false"
  | .TrueNode, _ => "true"
  | .MagicNode, _ => "24Kmagic"
  | .IntLitNode value, _ => toString value
  | .StrLitNode str, _ => str
  | .ofLoc loc, indent => loc.unparse indent
  | .NegNode exp, _ => "-" ++ exp.nestedUnparse 0
  | .NotNode exp, _ => "!" ++ exp.nestedUnparse 0
  | .AndNode lhs rhs, _ => lhs.nestedUnparse 0 ++ " and " ++ rhs.nestedUnparse 0
  | .DivideNode lhs rhs, _ => lhs.nestedUnparse 0 ++ " / " ++ rhs.nestedUnparse 0
  | .EqualsNode lhs rhs, _ => lhs.nestedUnparse 0 ++ " == " ++ rhs.nestedUnparse 0
  | .GreaterEqNode lhs rhs, _ => lhs.nestedUnparse 0 ++ " >= " ++ rhs.nestedUnparse 0
  | .GreaterNode lhs rhs, _ => lhs.nestedUnparse 0 ++ " > " ++ rhs.nestedUnparse 0
  | .LessNode lhs rhs, _ => lhs.nestedUnparse 0 ++ " < " ++ rhs.nestedUnparse 0
  | .LessEqNode lhs rhs, _ => lhs.nestedUnparse 0 ++ " <= " ++ rhs.nestedUnparse 0
  | .MinusNode lhs rhs, _ => lhs.nestedUnparse 0 ++ " - " ++ rhs.nestedUnparse 0
  | .NotEqualsNode lhs rhs, _ => lhs.nestedUnparse 0 ++ " != " ++ rhs.nestedUnparse 0
  | .OrNode lhs rhs, _ => lhs.nestedUnparse 0 ++ " or " ++ rhs.nestedUnparse 0
  | .PlusNode lhs rhs, _ => lhs.nestedUnparse 0 ++ " + " ++ rhs.nestedUnparse 0
  | .TimesNode lhs rhs, _ => lhs.nestedUnparse 0 ++ " * " ++ rhs.nestedUnparse 0
termination_by e _ => (sizeOf e, 0)
decreasing_by
  all_goals simp_wf
  all_goals (apply Prod.Lex.left; simp_arith)
/-- The `nestedUnparse` method of every expression class: the overrides at the end of
`unparse.cpp` (`CallExpNode`, `FalseNode`, `TrueNode`, `MagicNode`, `StrLitNode`,
`IntLitNode`; `IDNode` is in `LocNode.nestedUnparse`), and `ExpNode::nestedUnparse` for
every class that does not override it. -/
def ExpNode.nestedUnparse : ExpNode → Nat → String
  | .CallExpNode functionName args, _ => (ExpNode.CallExpNode functionName args).unparse 0
  | .FalseNode, _ => ExpNode.FalseNode.unparse 0
  | .TrueNode, _ => ExpNode.TrueNode.unparse 0
  | .MagicNode, _ => ExpNode.MagicNode.unparse 0
  | .IntLitNode value, _ => (ExpNode.IntLitNode value).unparse 0
  | .StrLitNode str, _ => (ExpNode.StrLitNode str).unparse 0
  | .ofLoc loc, indent => loc.nestedUnparse indent
  | .NegNode exp, _ => "(" ++ (ExpNode.NegNode exp).unparse 0 ++ ")"
  | .NotNode exp, _ => "(" ++ (ExpNode.NotNode exp).unparse 0 ++ ")"
  | .AndNode lhs rhs, _ => "(" ++ (ExpNode.AndNode lhs rhs).unparse 0 ++ ")"
  | .DivideNode lhs rhs, _ => "(" ++ (ExpNode.DivideNode lhs rhs).unparse 0 ++ ")"
  | .EqualsNode lhs rhs, _ => "(" ++ (ExpNode.EqualsNode lhs rhs).unparse 0 ++ ")"
  | .GreaterEqNode lhs rhs, _ => "(" ++ (ExpNode.GreaterEqNode lhs rhs).unparse 0 ++ ")"
  | .GreaterNode lhs rhs, _ => "(" ++ (ExpNode.GreaterNode lhs rhs).unparse 0 ++ ")"
  | .LessNode lhs rhs, _ => "(" ++ (ExpNode.LessNode lhs rhs).unparse 0 ++ ")"
  | .LessEqNode lhs rhs, _ => "(" ++ (ExpNode.LessEqNode lhs rhs).unparse 0 ++ ")"
  | .MinusNode lhs rhs, _ => "(" ++ (ExpNode.MinusNode lhs rhs).unparse 0 ++ ")"
  | .NotEqualsNode lhs rhs, _ => "(" ++ (ExpNode.NotEqualsNode lhs rhs).unparse 0 ++ ")"
  | .OrNode lhs rhs, _ => "(" ++ (ExpNode.OrNode lhs rhs).unparse 0 ++ ")"
  | .PlusNode lhs rhs, _ => "(" ++ (ExpNode.PlusNode lhs rhs).unparse 0 ++ ")"
  | .TimesNode lhs rhs, _ => "(" ++ (ExpNode.TimesNode lhs rhs).unparse 0 ++ ")"
termination_by e _ => (sizeOf e, 1)
decreasing_by
  all_goals simp_wf
  all_goals (apply Prod.Lex.right; simp_arith)
/-- The argument loop of `CallExpNode::unparse`; `firstArg` is the loop's flag. -/
def unparseArgs : List ExpNode → Bool → String
  | [], _ => ""
  | arg :: rest, firstArg =>
      (if firstArg then "" else ", ") ++ arg.unparse 0 ++ unparseArgs rest false
termination_by args _ => (sizeOf args, 0)
decreasing_by
  all_goals simp_wf
  all_goals (apply Prod.Lex.left; simp_arith)
end

/-- The `unparse` method of every type class. -/
def TypeNode.unparse : TypeNode → Nat → String
  | .IntTypeNode, _ => "int"
  | .BoolTypeNode, _ => "bool"
  | .ClassTypeNode id, indent => id.unparse indent
  | .PerfectTypeNode type, indent => "perfect " ++ type.unparse indent
  | .VoidTypeNode, _ => "void"

/-- The method `FormalDeclNode::unparse`. -/
def FormalDeclNode.unparse (f : FormalDeclNode) (indent : Nat) : String :=
  doIndent indent ++ f.myID.unparse 0 ++ " : " ++ f.myType.unparse 0

/-- The formals loop of `FnDeclNode::unparse`; `firstDecl` is the loop's flag. -/
def unparseFormals : List FormalDeclNode → Bool → String
  | [], _ => ""
  | decl :: rest, firstDecl =>
      (if firstDecl then "" else ", ") ++ decl.unparse 0 ++ unparseFormals rest false

mutual
/-- The `unparse` method of every statement class. -/
def StmtNode.unparse : StmtNode → Nat → String
  | .AssignStmtNode dest exp, indent =>
      doIndent indent ++ dest.unparse 0 ++ " = " ++ exp.unparse 0 ++ ";\n"
  | .CallStmtNode functionName args, indent =>
      doIndent indent ++ (ExpNode.CallExpNode functionName args).unparse 0 ++ ";\n"
  | .ExitStmtNode, indent =>
      doIndent indent ++ "today I don't feel like doing any work;\n"
  | .GiveStmtNode exp, indent =>
      doIndent indent ++ "give " ++ exp.unparse 0 ++ ";\n"
  | .IfElseStmtNode condition trueBranch falseBranch, indent =>
      doIndent indent ++ "if (" ++ condition.unparse 0 ++ ") \x7b\n"
        ++ unparseStmts trueBranch (indent + 1)
        ++ doIndent indent ++ "\x7d else \x7b\n"
        ++ unparseStmts falseBranch (indent + 1)
        ++ doIndent indent ++ "\x7d\n"
  | .IfStmtNode condition stmts, indent =>
      doIndent indent ++ "if (" ++ condition.unparse 0 ++ ") \x7b\n"
        ++ unparseStmts stmts (indent + 1)
        ++ doIndent indent ++ "\x7d\n"
  | .PostDecStmtNode loc, indent =>
      doIndent indent ++ loc.unparse 0 ++ "--;\n"
  | .PostIncStmtNode loc, indent =>
      doIndent indent ++ loc.unparse 0 ++ "++;\n"
  | .ReturnStmtNode exp, indent =>
      doIndent indent ++ "return " ++ exp.unparse 0 ++ ";\n"
  | .TakeStmtNode loc, indent =>
      doIndent indent ++ "take " ++ loc.unparse 0 ++ ";\n"
  | .WhileStmtNode exp stmts, indent =>
      doIndent indent ++ "while (" ++ exp.unparse 0 ++ ") \x7b\n"
        ++ unparseStmts stmts (indent + 1)
        ++ doIndent indent ++ "\x7d\n"
  | .ofDecl decl, indent => decl.unparse indent
/-- The `unparse` method of every declaration class. -/
def DeclNode.unparse : DeclNode → Nat → String
  | .ClassDeclNode name decls, indent =>
      doIndent indent ++ name.unparse indent ++ " : class \x7b\n"
        ++ unparseDecls decls (indent + 1)
        ++ doIndent indent ++ "\x7d;\n"
  | .VarDeclNode myID myType myExp, indent =>
      doIndent indent ++ myID.unparse 0 ++ " : " ++ myType.unparse 0
        ++ (match myExp with
            | some exp => " = " ++ exp.unparse 0
            | none => "")
        ++ ";\n"
  | .ofFormal formal, indent => formal.unparse indent
  | .FnDeclNode type id decls stmts, indent =>
      doIndent indent ++ id.unparse 0 ++ " : (" ++ unparseFormals decls true ++ ") "
        ++ type.unparse 0 ++ " \x7b\n"
        ++ unparseStmts stmts (indent + 1)
        ++ doIndent indent ++ "\x7d\n"
/-- The loop `for (auto stmt : *stmts) stmt->unparse(out, indent)` over statements. -/
def unparseStmts : List StmtNode → Nat → String
  | [], _ => ""
  | stmt :: rest, indent => stmt.unparse indent ++ unparseStmts rest indent
/-- The loop `for (auto decl : *decls) decl->unparse(out, indent)` over declarations. -/
def unparseDecls : List DeclNode → Nat → String
  | [], _ => ""
  | decl :: rest, indent => decl.unparse indent ++ unparseDecls rest indent
end

/-- The method `ProgramNode::unparse`. -/
def ProgramNode.unparse (p : ProgramNode) (indent : Nat) : String :=
  unparseDecls p.myGlobals indent

/-! ## Node construction (`ast.hpp`)

A constructor argument is a pointer that may be null: `none`. The result `none` is the
failed `assert`, after which no node exists. -/

/-- The constructor `VarDeclNode::VarDeclNode`: it stores the three pointers, then
asserts that `myType` is not null, then that `myID` is not null. -/
def VarDeclNode.construct (inID : Option IDNode) (inType : Option TypeNode)
    (expIn : Option ExpNode) : Option DeclNode :=
  match inType with
  | none => none
  | some myType =>
    match inID with
    | none => none
    | some myID => some (DeclNode.VarDeclNode myID myType expIn)

/-- The constructor `FormalDeclNode::FormalDeclNode`: it runs the `VarDeclNode`
constructor with the default initializer `nullptr`. -/
def FormalDeclNode.construct (id : Option IDNode) (type : Option TypeNode) :
    Option FormalDeclNode :=
  match VarDeclNode.construct id type none with
  | some (DeclNode.VarDeclNode myID myType _) => some (FormalDeclNode.mk myID myType)
  | _ => none

/-- The fields of a `FnDeclNode` as its constructor leaves them: the name and the return
type are the pointers that were passed, a null pointer included. -/
structure FnDeclFields where
  type : Option TypeNode
  id : Option IDNode
  decls : List FormalDeclNode
  stmts : List StmtNode

/-- The constructor `FnDeclNode::FnDeclNode`: it stores its arguments and asserts
nothing. -/
def FnDeclNode.construct (typeIn : Option TypeNode) (idIn : Option IDNode)
    (declsIn : List FormalDeclNode) (stmtsIn : List StmtNode) : Option FnDeclFields :=
  some (FnDeclFields.mk typeIn idIn declsIn stmtsIn)

/-- The fields of a `ClassDeclNode` as its constructor leaves them. -/
structure ClassDeclFields where
  name : Option IDNode
  decls : List DeclNode

/-- The constructor `ClassDeclNode::ClassDeclNode`: it stores its arguments and asserts
nothing. -/
def ClassDeclNode.construct (nameIn : Option IDNode) (declsIn : List DeclNode) :
    Option ClassDeclFields :=
  some (ClassDeclFields.mk nameIn declsIn)

/-! ## Renderer with a bound on the depth of nested calls

The rules of `unparse.cpp` once more, with a counter `fuel`: entering a rendering method,
or passing from a base-class pointer to the subclass it points to, uses one unit, and the
calls made from there get what is left. The result is `none` when the counter runs out
and `some text` when the rendering completes. The loops over lists run at the level of
the method that holds them. -/

/-- A loop with a first-element flag (call arguments, formals): `call` is the call made
on each element. -/
def commaLoopFuel {α : Type} (call : α → Option String) : List α → Bool → Option String
  | [], _ => some ""
  | x :: rest, first => do
      let a ← call x
      let r ← commaLoopFuel call rest false
      pure ((if first then "" else ", ") ++ a ++ r)

/-- A plain loop (statements, declarations): `call` is the call made on each element. -/
def loopFuel {α : Type} (call : α → Option String) : List α → Option String
  | [] => some ""
  | x :: rest => do
      let a ← call x
      let r ← loopFuel call rest
      pure (a ++ r)

/-- The method `IDNode::unparse`, with the counter. -/
def IDNode.unparseFuel : Nat → IDNode → Nat → Option String
  | 0, _, _ => none
  | _ + 1, n, _ => some n.name

/-- The method `IDNode::nestedUnparse`, with the counter. -/
def IDNode.nestedUnparseFuel : Nat → IDNode → Nat → Option String
  | 0, _, _ => none
  | fuel + 1, n, _ => n.unparseFuel fuel 0

/-- The `unparse` method of the location classes, with the counter. -/
def LocNode.unparseFuel : Nat → LocNode → Nat → Option String
  | 0, _, _ => none
  | fuel + 1, .ofID id, indent => id.unparseFuel fuel indent
  | fuel + 1, .MemberFieldExpNode loc name, _ => do
      let l ← loc.unparseFuel fuel 0
      let n ← name.unparseFuel fuel 0
      pure (l ++ "--" ++ n)

/-- The `nestedUnparse` method of the location classes, with the counter. -/
def LocNode.nestedUnparseFuel : Nat → LocNode → Nat → Option String
  | 0, _, _ => none
  | fuel + 1, .ofID id, indent => id.nestedUnparseFuel fuel indent
  | fuel + 1, .MemberFieldExpNode loc name, _ => do
      let s ← (LocNode.MemberFieldExpNode loc name).unparseFuel fuel 0
      pure ("(" ++ s ++ ")")

mutual
/-- The `unparse` method of the expression classes, with the counter. -/
def ExpNode.unparseFuel : Nat → ExpNode → Nat → Option String
  | 0, _, _ => none
  | fuel + 1, .CallExpNode functionName args, _ => do
      let f ← functionName.unparseFuel fuel 0
      let a ← commaLoopFuel (fun arg => ExpNode.unparseFuel fuel arg 0) args true
      pure (f ++ "(" ++ a ++ ")")
  | _ + 1, .FalseNode, _ => some "false"
  | _ + 1, .TrueNode, _ => some "true"
  | _ + 1, .MagicNode, _ => some "24Kmagic"
  | _ + 1, .IntLitNode value, _ => some (toString value)
  | _ + 1, .StrLitNode str, _ => some str
  | fuel + 1, .ofLoc loc, indent => loc.unparseFuel fuel indent
  | fuel + 1, .NegNode exp, _ => do
      let e ← exp.nestedUnparseFuel fuel 0
      pure ("-" ++ e)
  | fuel + 1, .NotNode exp, _ => do
      let e ← exp.nestedUnparseFuel fuel 0
      pure ("!" ++ e)
  | fuel + 1, .AndNode lhs rhs, _ => do
      let l ← lhs.nestedUnparseFuel fuel 0
      let r ← rhs.nestedUnparseFuel fuel 0
      pure (l ++ " and " ++ r)
  | fuel + 1, .DivideNode lhs rhs, _ => do
      let l ← lhs.nestedUnparseFuel fuel 0
      let r ← rhs.nestedUnparseFuel fuel 0
      pure (l ++ " / " ++ r)
  | fuel + 1, .EqualsNode lhs rhs, _ => do
      let l ← lhs.nestedUnparseFuel fuel 0
      let r ← rhs.nestedUnparseFuel fuel 0
      pure (l ++ " == " ++ r)
  | fuel + 1, .GreaterEqNode lhs rhs, _ => do
      let l ← lhs.nestedUnparseFuel fuel 0
      let r ← rhs.nestedUnparseFuel fuel 0
      pure (l ++ " >= " ++ r)
  | fuel + 1, .GreaterNode lhs rhs, _ => do
      let l ← lhs.nestedUnparseFuel fuel 0
      let r ← rhs.nestedUnparseFuel fuel 0
      pure (l ++ " > " ++ r)
  | fuel + 1, .LessNode lhs rhs, _ => do
      let l ← lhs.nestedUnparseFuel fuel 0
      let r ← rhs.nestedUnparseFuel fuel 0
      pure (l ++ " < " ++ r)
  | fuel + 1, .LessEqNode lhs rhs, _ => do
      let l ← lhs.nestedUnparseFuel fuel 0
      let r ← rhs.nestedUnparseFuel fuel 0
      pure (l ++ " <= " ++ r)
  | fuel + 1, .MinusNode lhs rhs, _ => do
      let l ← lhs.nestedUnparseFuel fuel 0
      let r ← rhs.nestedUnparseFuel fuel 0
      pure (l ++ " - " ++ r)
  | fuel + 1, .NotEqualsNode lhs rhs, _ => do
      let l ← lhs.nestedUnparseFuel fuel 0
      let r ← rhs.nestedUnparseFuel fuel 0
      pure (l ++ " != " ++ r)
  | fuel + 1, .OrNode lhs rhs, _ => do
      let l ← lhs.nestedUnparseFuel fuel 0
      let r ← rhs.nestedUnparseFuel fuel 0
      pure (l ++ " or " ++ r)
  | fuel + 1, .PlusNode lhs rhs, _ => do
      let l ← lhs.nestedUnparseFuel fuel 0
      let r ← rhs.nestedUnparseFuel fuel 0
      pure (l ++ " + " ++ r)
  | fuel + 1, .TimesNode lhs rhs, _ => do
      let l ← lhs.nestedUnparseFuel fuel 0
      let r ← rhs.nestedUnparseFuel fuel 0
      pure (l ++ " * " ++ r)
/-- The `nestedUnparse` method of the expression classes, with the counter: the
overriding classes call `unparse` on the same node, the others wrap that call in
parentheses. -/
def ExpNode.nestedUnparseFuel : Nat → ExpNode → Nat → Option String
  | 0, _, _ => none
  | fuel + 1, .CallExpNode functionName args, _ =>
      (ExpNode.CallExpNode functionName args).unparseFuel fuel 0
  | fuel + 1, .FalseNode, _ => ExpNode.FalseNode.unparseFuel fuel 0
  | fuel + 1, .TrueNode, _ => ExpNode.TrueNode.unparseFuel fuel 0
  | fuel + 1, .MagicNode, _ => ExpNode.MagicNode.unparseFuel fuel 0
  | fuel + 1, .IntLitNode value, _ => (ExpNode.IntLitNode value).unparseFuel fuel 0
  | fuel + 1, .StrLitNode str, _ => (ExpNode.StrLitNode str).unparseFuel fuel 0
  | fuel + 1, .ofLoc loc, indent => loc.nestedUnparseFuel fuel indent
  | fuel + 1, .NegNode exp, _ => do
      let s ← (ExpNode.NegNode exp).unparseFuel fuel 0
      pure ("(" ++ s ++ ")")
  | fuel + 1, .NotNode exp, _ => do
      let s ← (ExpNode.NotNode exp).unparseFuel fuel 0
      pure ("(" ++ s ++ ")")
  | fuel + 1, .AndNode lhs rhs, _ => do
      let s ← (ExpNode.AndNode lhs rhs).unparseFuel fuel 0
      pure ("(" ++ s ++ ")")
  | fuel + 1, .DivideNode lhs rhs, _ => do
      let s ← (ExpNode.DivideNode lhs rhs).unparseFuel fuel 0
      pure ("(" ++ s ++ ")")
  | fuel + 1, .EqualsNode lhs rhs, _ => do
      let s ← (ExpNode.EqualsNode lhs rhs).unparseFuel fuel 0
      pure ("(" ++ s ++ ")")
  | fuel + 1, .GreaterEqNode lhs rhs, _ => do
      let s ← (ExpNode.GreaterEqNode lhs rhs).unparseFuel fuel 0
      pure ("(" ++ s ++ ")")
  | fuel + 1, .GreaterNode lhs rhs, _ => do
      let s ← (ExpNode.GreaterNode lhs rhs).unparseFuel fuel 0
      pure ("(" ++ s ++ ")")
  | fuel + 1, .LessNode lhs rhs, _ => do
      let s ← (ExpNode.LessNode lhs rhs).unparseFuel fuel 0
      pure ("(" ++ s ++ ")")
  | fuel + 1, .LessEqNode lhs rhs, _ => do
      let s ← (ExpNode.LessEqNode lhs rhs).unparseFuel fuel 0
      pure ("(" ++ s ++ ")")
  | fuel + 1, .MinusNode lhs rhs, _ => do
      let s ← (ExpNode.MinusNode lhs rhs).unparseFuel fuel 0
      pure ("(" ++ s ++ ")")
  | fuel + 1, .NotEqualsNode lhs rhs, _ => do
      let s ← (ExpNode.NotEqualsNode lhs rhs).unparseFuel fuel 0
      pure ("(" ++ s ++ ")")
  | fuel + 1, .OrNode lhs rhs, _ => do
      let s ← (ExpNode.OrNode lhs rhs).unparseFuel fuel 0
      pure ("(" ++ s ++ ")")
  | fuel + 1, .PlusNode lhs rhs, _ => do
      let s ← (ExpNode.PlusNode lhs rhs).unparseFuel fuel 0
      pure ("(" ++ s ++ ")")
  | fuel + 1, .TimesNode lhs rhs, _ => do
      let s ← (ExpNode.TimesNode lhs rhs).unparseFuel fuel 0
      pure ("(" ++ s ++ ")")
end

/-- The `unparse` method of the type classes, with the counter. -/
def TypeNode.unparseFuel : Nat → TypeNode → Nat → Option String
  | 0, _, _ => none
  | _ + 1, .IntTypeNode, _ => some "int"
  | _ + 1, .BoolTypeNode, _ => some "bool"
  | fuel + 1, .ClassTypeNode id, indent => id.unparseFuel fuel indent
  | fuel + 1, .PerfectTypeNode type, indent => do
      let t ← type.unparseFuel fuel indent
      pure ("perfect " ++ t)
  | _ + 1, .VoidTypeNode, _ => some "void"

/-- The method `FormalDeclNode::unparse`, with the counter. -/
def FormalDeclNode.unparseFuel : Nat → FormalDeclNode → Nat → Option String
  | 0, _, _ => none
  | fuel + 1, f, indent => do
      let i ← f.myID.unparseFuel fuel 0
      let t ← f.myType.unparseFuel fuel 0
      pure (doIndent indent ++ i ++ " : " ++ t)

mutual
/-- The `unparse` method of the statement classes, with the counter. -/
def StmtNode.unparseFuel : Nat → StmtNode → Nat → Option String
  | 0, _, _ => none
  | fuel + 1, .AssignStmtNode dest exp, indent => do
      let d ← dest.unparseFuel fuel 0
      let e ← exp.unparseFuel fuel 0
      pure (doIndent indent ++ d ++ " = " ++ e ++ ";\n")
  | fuel + 1, .CallStmtNode functionName args, indent => do
      let c ← (ExpNode.CallExpNode functionName args).unparseFuel fuel 0
      pure (doIndent indent ++ c ++ ";\n")
  | _ + 1, .ExitStmtNode, indent =>
      some (doIndent indent ++ "today I don't feel like doing any work;\n")
  | fuel + 1, .GiveStmtNode exp, indent => do
      let e ← exp.unparseFuel fuel 0
      pure (doIndent indent ++ "give " ++ e ++ ";\n")
  | fuel + 1, .IfElseStmtNode condition trueBranch falseBranch, indent => do
      let c ← condition.unparseFuel fuel 0
      let t ← loopFuel (fun stmt => StmtNode.unparseFuel fuel stmt (indent + 1)) trueBranch
      let f ← loopFuel (fun stmt => StmtNode.unparseFuel fuel stmt (indent + 1)) falseBranch
      pure (doIndent indent ++ "if (" ++ c ++ ") \x7b\n" ++ t
        ++ doIndent indent ++ "\x7d else \x7b\n" ++ f ++ doIndent indent ++ "\x7d\n")
  | fuel + 1, .IfStmtNode condition stmts, indent => do
      let c ← condition.unparseFuel fuel 0
      let b ← loopFuel (fun stmt => StmtNode.unparseFuel fuel stmt (indent + 1)) stmts
      pure (doIndent indent ++ "if (" ++ c ++ ") \x7b\n" ++ b ++ doIndent indent ++ "\x7d\n")
  | fuel + 1, .PostDecStmtNode loc, indent => do
      let l ← loc.unparseFuel fuel 0
      pure (doIndent indent ++ l ++ "--;\n")
  | fuel + 1, .PostIncStmtNode loc, indent => do
      let l ← loc.unparseFuel fuel 0
      pure (doIndent indent ++ l ++ "++;\n")
  | fuel + 1, .ReturnStmtNode exp, indent => do
      let e ← exp.unparseFuel fuel 0
      pure (doIndent indent ++ "return " ++ e ++ ";\n")
  | fuel + 1, .TakeStmtNode loc, indent => do
      let l ← loc.unparseFuel fuel 0
      pure (doIndent indent ++ "take " ++ l ++ ";\n")
  | fuel + 1, .WhileStmtNode exp stmts, indent => do
      let c ← exp.unparseFuel fuel 0
      let b ← loopFuel (fun stmt => StmtNode.unparseFuel fuel stmt (indent + 1)) stmts
      pure (doIndent indent ++ "while (" ++ c ++ ") \x7b\n" ++ b ++ doIndent indent ++ "\x7d\n")
  | fuel + 1, .ofDecl decl, indent => decl.unparseFuel fuel indent
/-- The `unparse` method of the declaration classes, with the counter. -/
def DeclNode.unparseFuel : Nat → DeclNode → Nat → Option String
  | 0, _, _ => none
  | fuel + 1, .ClassDeclNode name decls, indent => do
      let n ← name.unparseFuel fuel indent
      let b ← loopFuel (fun decl => DeclNode.unparseFuel fuel decl (indent + 1)) decls
      pure (doIndent indent ++ n ++ " : class \x7b\n" ++ b ++ doIndent indent ++ "\x7d;\n")
  | fuel + 1, .VarDeclNode myID myType none, indent => do
      let i ← myID.unparseFuel fuel 0
      let t ← myType.unparseFuel fuel 0
      pure (doIndent indent ++ i ++ " : " ++ t ++ "" ++ ";\n")
  | fuel + 1, .VarDeclNode myID myType (some exp), indent => do
      let i ← myID.unparseFuel fuel 0
      let t ← myType.unparseFuel fuel 0
      let e ← exp.unparseFuel fuel 0
      pure (doIndent indent ++ i ++ " : " ++ t ++ (" = " ++ e) ++ ";\n")
  | fuel + 1, .ofFormal formal, indent => formal.unparseFuel fuel indent
  | fuel + 1, .FnDeclNode type id decls stmts, indent => do
      let i ← id.unparseFuel fuel 0
      let p ← commaLoopFuel (fun decl => FormalDeclNode.unparseFuel fuel decl 0) decls true
      let t ← type.unparseFuel fuel 0
      let b ← loopFuel (fun stmt => StmtNode.unparseFuel fuel stmt (indent + 1)) stmts
      pure (doIndent indent ++ i ++ " : (" ++ p ++ ") " ++ t ++ " \x7b\n" ++ b
        ++ doIndent indent ++ "\x7d\n")
end

/-- The method `ProgramNode::unparse`, with the counter. -/
def ProgramNode.unparseFuel : Nat → ProgramNode → Nat → Option String
  | 0, _, _ => none
  | fuel + 1, p, indent =>
      loopFuel (fun global => DeclNode.unparseFuel fuel global indent) p.myGlobals

/-! ## Vocabulary of the specification -/

/-- The text made of `k` tab characters. -/
def tabs (k : Nat) : String :=
  String.mk (List.replicate k '\t')

/-- The texts of a list written one after the other, in list order. -/
def concatAll (l : List String) : String :=
  l.foldr (fun s acc => s ++ acc) ""

/-- Unary (negate, not) and binary expressions. -/
def ExpNode.isUnaryOrBinary : ExpNode → Bool
  | .NegNode _ | .NotNode _ => true
  | .AndNode _ _ | .DivideNode _ _ | .EqualsNode _ _ | .GreaterEqNode _ _
  | .GreaterNode _ _ | .LessNode _ _ | .LessEqNode _ _ | .MinusNode _ _
  | .NotEqualsNode _ _ | .OrNode _ _ | .PlusNode _ _ | .TimesNode _ _ => true
  | _ => false

/-- The twelve binary operators. -/
inductive BinOp where
  | and | or | divide | equals | greaterEq | greater | less | lessEq | minus | notEquals
  | plus | times
  deriving DecidableEq

/-- The source spelling of a binary operator, as the specification lists them. -/
def BinOp.spelling : BinOp → String
  | .and => "and"
  | .or => "or"
  | .divide => "/"
  | .equals => "=="
  | .greaterEq => ">="
  | .greater => ">"
  | .less => "<"
  | .lessEq => "<="
  | .minus => "-"
  | .notEquals => "!="
  | .plus => "+"
  | .times => "*"

/-- The node class of a binary operator. -/
def BinOp.node : BinOp → ExpNode → ExpNode → ExpNode
  | .and => ExpNode.AndNode
  | .or => ExpNode.OrNode
  | .divide => ExpNode.DivideNode
  | .equals => ExpNode.EqualsNode
  | .greaterEq => ExpNode.GreaterEqNode
  | .greater => ExpNode.GreaterNode
  | .less => ExpNode.LessNode
  | .lessEq => ExpNode.LessEqNode
  | .minus => ExpNode.MinusNode
  | .notEquals => ExpNode.NotEqualsNode
  | .plus => ExpNode.PlusNode
  | .times => ExpNode.TimesNode

/-! ### Indentation of a text

A line of a text is a maximal run of characters that ends with its line break (or with the
end of the text). -/

/-- Worker of `indentLines`: `atLineStart` tells whether the next character starts a
line. -/
def indentFrom (k : Nat) : Bool → List Char → List Char
  | _, [] => []
  | atLineStart, c :: cs =>
      (if atLineStart then List.replicate k '\t' else []) ++ c :: indentFrom k (c == '\n') cs

/-- The text with `k` tab characters inserted at the start of every line. -/
def indentLines (k : Nat) (text : String) : String :=
  String.mk (indentFrom k true text.data)

/-- The text contains no line break. -/
def hasNoLineBreak (text : String) : Bool :=
  text.data.all (fun c => c != '\n')

/-! ### Trees without a line break in a name or in a string literal -/

/-- The identifier's name contains no line break. -/
def IDNode.noLineBreak (n : IDNode) : Bool :=
  hasNoLineBreak n.name

/-- No identifier of the location has a line break in its name. -/
def LocNode.noLineBreak : LocNode → Bool
  | .ofID id => id.noLineBreak
  | .MemberFieldExpNode loc name => loc.noLineBreak && name.noLineBreak

mutual
/-- No identifier name and no string-literal text of the expression contains a line
break. -/
def ExpNode.noLineBreak : ExpNode → Bool
  | .CallExpNode functionName args => functionName.noLineBreak && argsNoLineBreak args
  | .FalseNode | .TrueNode | .MagicNode | .IntLitNode _ => true
  | .StrLitNode str => hasNoLineBreak str
  | .ofLoc loc => loc.noLineBreak
  | .NegNode exp | .NotNode exp => exp.noLineBreak
  | .AndNode lhs rhs | .DivideNode lhs rhs | .EqualsNode lhs rhs | .GreaterEqNode lhs rhs
  | .GreaterNode lhs rhs | .LessNode lhs rhs | .LessEqNode lhs rhs | .MinusNode lhs rhs
  | .NotEqualsNode lhs rhs | .OrNode lhs rhs | .PlusNode lhs rhs | .TimesNode lhs rhs =>
      lhs.noLineBreak && rhs.noLineBreak
/-- The predicate `ExpNode.noLineBreak` for every expression of a list. -/
def argsNoLineBreak : List ExpNode → Bool
  | [] => true
  | arg :: rest => arg.noLineBreak && argsNoLineBreak rest
end

/-- No identifier of the type has a line break in its name. -/
def TypeNode.noLineBreak : TypeNode → Bool
  | .ClassTypeNode id => id.noLineBreak
  | .PerfectTypeNode type => type.noLineBreak
  | .IntTypeNode | .BoolTypeNode | .VoidTypeNode => true

/-- Neither the name nor the type of the formal contains a line break. -/
def FormalDeclNode.noLineBreak (f : FormalDeclNode) : Bool :=
  f.myID.noLineBreak && f.myType.noLineBreak

/-- The predicate `FormalDeclNode.noLineBreak` for every formal of a list. -/
def formalsNoLineBreak : List FormalDeclNode → Bool
  | [] => true
  | decl :: rest => decl.noLineBreak && formalsNoLineBreak rest

mutual
/-- No identifier name and no string-literal text of the statement contains a line
break. -/
def StmtNode.noLineBreak : StmtNode → Bool
  | .AssignStmtNode dest exp => dest.noLineBreak && exp.noLineBreak
  | .CallStmtNode functionName args => functionName.noLineBreak && argsNoLineBreak args
  | .ExitStmtNode => true
  | .GiveStmtNode exp | .ReturnStmtNode exp => exp.noLineBreak
  | .IfElseStmtNode condition trueBranch falseBranch =>
      condition.noLineBreak && stmtsNoLineBreak trueBranch && stmtsNoLineBreak falseBranch
  | .IfStmtNode condition stmts | .WhileStmtNode condition stmts =>
      condition.noLineBreak && stmtsNoLineBreak stmts
  | .PostDecStmtNode loc | .PostIncStmtNode loc | .TakeStmtNode loc => loc.noLineBreak
  | .ofDecl decl => decl.noLineBreak
/-- No identifier name and no string-literal text of the declaration contains a line
break. -/
def DeclNode.noLineBreak : DeclNode → Bool
  | .ClassDeclNode name decls => name.noLineBreak && declsNoLineBreak decls
  | .VarDeclNode myID myType none => myID.noLineBreak && myType.noLineBreak
  | .VarDeclNode myID myType (some exp) =>
      myID.noLineBreak && myType.noLineBreak && exp.noLineBreak
  | .ofFormal formal => formal.noLineBreak
  | .FnDeclNode type id decls stmts =>
      type.noLineBreak && id.noLineBreak && formalsNoLineBreak decls
        && stmtsNoLineBreak stmts
/-- The predicate `StmtNode.noLineBreak` for every statement of a list. -/
def stmtsNoLineBreak : List StmtNode → Bool
  | [] => true
  | stmt :: rest => stmt.noLineBreak && stmtsNoLineBreak rest
/-- The predicate `DeclNode.noLineBreak` for every declaration of a list. -/
def declsNoLineBreak : List DeclNode → Bool
  | [] => true
  | decl :: rest => decl.noLineBreak && declsNoLineBreak rest
end

/-! ### Trees whose formal-parameter declarations are all in parameter lists -/

mutual
/-- No `FormalDeclNode` is the statement itself or an element of a statement list or of a
class member list inside it: formals occur in the parameter lists of functions only. -/
def StmtNode.formalsInParamLists : StmtNode → Bool
  | .IfElseStmtNode _ trueBranch falseBranch =>
      stmtsFormalsInParamLists trueBranch && stmtsFormalsInParamLists falseBranch
  | .IfStmtNode _ stmts | .WhileStmtNode _ stmts => stmtsFormalsInParamLists stmts
  | .ofDecl decl => decl.formalsInParamLists
  | .AssignStmtNode _ _ | .CallStmtNode _ _ | .ExitStmtNode | .GiveStmtNode _
  | .PostDecStmtNode _ | .PostIncStmtNode _ | .ReturnStmtNode _ | .TakeStmtNode _ => true
/-- The same for a declaration. -/
def DeclNode.formalsInParamLists : DeclNode → Bool
  | .ClassDeclNode _ decls => declsFormalsInParamLists decls
  | .VarDeclNode _ _ _ => true
  | .ofFormal _ => false
  | .FnDeclNode _ _ _ stmts => stmtsFormalsInParamLists stmts
/-- The predicate `StmtNode.formalsInParamLists` for every statement of a list. -/
def stmtsFormalsInParamLists : List StmtNode → Bool
  | [] => true
  | stmt :: rest => stmt.formalsInParamLists && stmtsFormalsInParamLists rest
/-- The predicate `DeclNode.formalsInParamLists` for every declaration of a list. -/
def declsFormalsInParamLists : List DeclNode → Bool
  | [] => true
  | decl :: rest => decl.formalsInParamLists && declsFormalsInParamLists rest
end

/-- The lines of a text, each with its line break (the last one may lack it). -/
def linesOf : List Char → List (List Char)
  | [] => []
  | c :: cs =>
      if c == '\n' then [c] :: linesOf cs
      else match linesOf cs with
        | [] => [[c]]
        | l :: ls => (c :: l) :: ls

/-! ### Parentheses of a text -/

/-- The text contains neither `(` nor `)`. -/
def hasNoParen (text : String) : Bool :=
  text.data.all (fun c => c != '(' && c != ')')

/-- The identifier's name contains no parenthesis. -/
def IDNode.noParen (n : IDNode) : Bool :=
  hasNoParen n.name

/-- No identifier of the location has a parenthesis in its name. -/
def LocNode.noParen : LocNode → Bool
  | .ofID id => id.noParen
  | .MemberFieldExpNode loc name => loc.noParen && name.noParen

mutual
/-- No identifier name and no string-literal text of the expression contains a
parenthesis. -/
def ExpNode.noParen : ExpNode → Bool
  | .CallExpNode functionName args => functionName.noParen && argsNoParen args
  | .FalseNode | .TrueNode | .MagicNode | .IntLitNode _ => true
  | .StrLitNode str => hasNoParen str
  | .ofLoc loc => loc.noParen
  | .NegNode exp | .NotNode exp => exp.noParen
  | .AndNode lhs rhs | .DivideNode lhs rhs | .EqualsNode lhs rhs | .GreaterEqNode lhs rhs
  | .GreaterNode lhs rhs | .LessNode lhs rhs | .LessEqNode lhs rhs | .MinusNode lhs rhs
  | .NotEqualsNode lhs rhs | .OrNode lhs rhs | .PlusNode lhs rhs | .TimesNode lhs rhs =>
      lhs.noParen && rhs.noParen
/-- The predicate `ExpNode.noParen` for every expression of a list. -/
def argsNoParen : List ExpNode → Bool
  | [] => true
  | arg :: rest => arg.noParen && argsNoParen rest
end

/-- Every prefix of the text has at most `d` more `)` than `(`, and the whole text takes
a surplus `d` of `(` to the surplus `d'`. -/
def ParenFromTo (d d' : Nat) (t : List Char) : Prop :=
  (∀ p, p <+: t → p.count ')' ≤ d + p.count '(') ∧ d + t.count '(' = d' + t.count ')'

/-- Balanced parentheses: every prefix of the text contains at least as many `(` as `)`,
and the whole text contains equally many of each. -/
def Balanced (t : List Char) : Prop :=
  (∀ p, p <+: t → p.count ')' ≤ p.count '(') ∧ t.count '(' = t.count ')'

/-- The text is a block at depth `j`: its first line is `j` tabs and `opener`, its last
line is `j` tabs and `closer`, the lines between them are the lines of `body`, and every
one of these starts with `j + 1` tabs. -/
def IsBlockAt (j : Nat) (text opener body closer : String) : Prop :=
  linesOf text.data
      = (tabs j ++ opener ++ "\n").data
          :: (linesOf body.data ++ [(tabs j ++ closer ++ "\n").data])
    ∧ ∀ l ∈ linesOf body.data, List.replicate (j + 1) '\t' <+: l

/-- An example: the statement `if (true) { a++; f : (p : bool) int { return 1; } }`. -/
def exampleIf : StmtNode :=
  .IfStmtNode .TrueNode
    [.PostIncStmtNode (.ofID ⟨"a"⟩),
     .ofDecl (.FnDeclNode .IntTypeNode ⟨"f"⟩ [⟨⟨"p"⟩, .BoolTypeNode⟩]
        [.ReturnStmtNode (.IntLitNode 1)])]

/-! ### Calls between the rendering methods

Which method of which node each rendering method calls, read off `unparse.cpp`. A node
of any class is a `Node`; the constructors `ofID`, `ofLoc`, `ofDecl` and `ofFormal` of the
tree model stand for the same object seen through a base class, so they have the
children and make the calls of the object they hold. -/

/-- The two rendering methods. -/
inductive Method where
  | unparse
  | nestedUnparse
  deriving DecidableEq

/-- A node of any class of `ast.hpp`. -/
inductive Node where
  | program (p : ProgramNode)
  | decl (d : DeclNode)
  | formal (f : FormalDeclNode)
  | stmt (s : StmtNode)
  | exp (e : ExpNode)
  | loc (l : LocNode)
  | id (n : IDNode)
  | type (t : TypeNode)

/-- The child nodes a location owns. -/
def LocNode.children : LocNode → List Node
  | .ofID _ => []
  | .MemberFieldExpNode loc name => [.loc loc, .id name]

/-- The child nodes an expression owns. -/
def ExpNode.children : ExpNode → List Node
  | .CallExpNode functionName args => .loc functionName :: args.map Node.exp
  | .FalseNode | .TrueNode | .MagicNode | .IntLitNode _ | .StrLitNode _ => []
  | .ofLoc loc => loc.children
  | .NegNode exp | .NotNode exp => [.exp exp]
  | .AndNode lhs rhs | .DivideNode lhs rhs | .EqualsNode lhs rhs | .GreaterEqNode lhs rhs
  | .GreaterNode lhs rhs | .LessNode lhs rhs | .LessEqNode lhs rhs | .MinusNode lhs rhs
  | .NotEqualsNode lhs rhs | .OrNode lhs rhs | .PlusNode lhs rhs | .TimesNode lhs rhs =>
      [.exp lhs, .exp rhs]

/-- The child nodes a type owns. -/
def TypeNode.children : TypeNode → List Node
  | .ClassTypeNode id => [.id id]
  | .PerfectTypeNode type => [.type type]
  | .IntTypeNode | .BoolTypeNode | .VoidTypeNode => []

/-- The child nodes a formal owns. -/
def FormalDeclNode.children (f : FormalDeclNode) : List Node :=
  [.id f.myID, .type f.myType]

/-- The child nodes a declaration owns. -/
def DeclNode.children : DeclNode → List Node
  | .ClassDeclNode name decls => .id name :: decls.map Node.decl
  | .VarDeclNode myID myType none => [.id myID, .type myType]
  | .VarDeclNode myID myType (some exp) => [.id myID, .type myType, .exp exp]
  | .ofFormal formal => formal.children
  | .FnDeclNode type id decls stmts =>
      .type type :: .id id :: (decls.map Node.formal ++ stmts.map Node.stmt)

/-- The child nodes a statement owns; a call statement owns its `CallExpNode`. -/
def StmtNode.children : StmtNode → List Node
  | .AssignStmtNode dest exp => [.loc dest, .exp exp]
  | .CallStmtNode functionName args => [.exp (.CallExpNode functionName args)]
  | .ExitStmtNode => []
  | .GiveStmtNode exp | .ReturnStmtNode exp => [.exp exp]
  | .IfElseStmtNode condition trueBranch falseBranch =>
      .exp condition :: (trueBranch.map Node.stmt ++ falseBranch.map Node.stmt)
  | .IfStmtNode condition stmts | .WhileStmtNode condition stmts =>
      .exp condition :: stmts.map Node.stmt
  | .PostDecStmtNode loc | .PostIncStmtNode loc | .TakeStmtNode loc => [.loc loc]
  | .ofDecl decl => decl.children

/-- The child nodes of a node. -/
def Node.children : Node → List Node
  | .program p => p.myGlobals.map Node.decl
  | .decl d => d.children
  | .formal f => f.children
  | .stmt s => s.children
  | .exp e => e.children
  | .loc l => l.children
  | .id _ => []
  | .type t => t.children

/-- A strict sub-tree of a node: a child, or a strict sub-tree of a child. -/
def StrictSubtree (a b : Node) : Prop :=
  Relation.TransGen (fun x y => x ∈ y.children) a b

/-- The calls in `IDNode::unparse` (none) and `MemberFieldExpNode::unparse`. -/
def LocNode.unparseCalls : LocNode → List (Method × Node)
  | .ofID _ => []
  | .MemberFieldExpNode loc name => [(.unparse, .loc loc), (.unparse, .id name)]

/-- The calls in the `unparse` method of each expression class. -/
def ExpNode.unparseCalls : ExpNode → List (Method × Node)
  | .CallExpNode functionName args =>
      (.unparse, .loc functionName) :: args.map (fun arg => (Method.unparse, Node.exp arg))
  | .FalseNode | .TrueNode | .MagicNode | .IntLitNode _ | .StrLitNode _ => []
  | .ofLoc loc => loc.unparseCalls
  | .NegNode exp | .NotNode exp => [(.nestedUnparse, .exp exp)]
  | .AndNode lhs rhs | .DivideNode lhs rhs | .EqualsNode lhs rhs | .GreaterEqNode lhs rhs
  | .GreaterNode lhs rhs | .LessNode lhs rhs | .LessEqNode lhs rhs | .MinusNode lhs rhs
  | .NotEqualsNode lhs rhs | .OrNode lhs rhs | .PlusNode lhs rhs | .TimesNode lhs rhs =>
      [(.nestedUnparse, .exp lhs), (.nestedUnparse, .exp rhs)]

/-- The calls in the `unparse` method of each type class. -/
def TypeNode.unparseCalls : TypeNode → List (Method × Node)
  | .ClassTypeNode id => [(.unparse, .id id)]
  | .PerfectTypeNode type => [(.unparse, .type type)]
  | .IntTypeNode | .BoolTypeNode | .VoidTypeNode => []

/-- The calls in `FormalDeclNode::unparse`. -/
def FormalDeclNode.unparseCalls (f : FormalDeclNode) : List (Method × Node) :=
  [(.unparse, .id f.myID), (.unparse, .type f.myType)]

/-- The calls in the `unparse` method of each declaration class. -/
def DeclNode.unparseCalls : DeclNode → List (Method × Node)
  | .ClassDeclNode name decls =>
      (.unparse, .id name) :: decls.map (fun decl => (Method.unparse, Node.decl decl))
  | .VarDeclNode myID myType none => [(.unparse, .id myID), (.unparse, .type myType)]
  | .VarDeclNode myID myType (some exp) =>
      [(.unparse, .id myID), (.unparse, .type myType), (.unparse, .exp exp)]
  | .ofFormal formal => formal.unparseCalls
  | .FnDeclNode type id decls stmts =>
      (.unparse, .id id)
        :: (decls.map (fun decl => (Method.unparse, Node.formal decl))
          ++ (.unparse, .type type)
            :: stmts.map (fun stmt => (Method.unparse, Node.stmt stmt)))

/-- The calls in the `unparse` method of each statement class. -/
def StmtNode.unparseCalls : StmtNode → List (Method × Node)
  | .AssignStmtNode dest exp => [(.unparse, .loc dest), (.unparse, .exp exp)]
  | .CallStmtNode functionName args => [(.unparse, .exp (.CallExpNode functionName args))]
  | .ExitStmtNode => []
  | .GiveStmtNode exp | .ReturnStmtNode exp => [(.unparse, .exp exp)]
  | .IfElseStmtNode condition trueBranch falseBranch =>
      (.unparse, .exp condition)
        :: (trueBranch.map (fun stmt => (Method.unparse, Node.stmt stmt))
          ++ falseBranch.map (fun stmt => (Method.unparse, Node.stmt stmt)))
  | .IfStmtNode condition stmts | .WhileStmtNode condition stmts =>
      (.unparse, .exp condition) :: stmts.map (fun stmt => (Method.unparse, Node.stmt stmt))
  | .PostDecStmtNode loc | .PostIncStmtNode loc | .TakeStmtNode loc => [(.unparse, .loc loc)]
  | .ofDecl decl => decl.unparseCalls

/-- The calls a rendering method makes on a node, in the order of the code.
`nestedUnparse` is defined on expressions, locations and identifiers, where every version
of it, overriding or inherited, calls `unparse` on the node itself; the one `StmtNode`
declares has no definition and no caller. -/
def Node.calls : Method → Node → List (Method × Node)
  | .unparse, .program p => p.myGlobals.map (fun global => (Method.unparse, Node.decl global))
  | .unparse, .decl d => d.unparseCalls
  | .unparse, .formal f => f.unparseCalls
  | .unparse, .stmt s => s.unparseCalls
  | .unparse, .exp e => e.unparseCalls
  | .unparse, .loc l => l.unparseCalls
  | .unparse, .id _ => []
  | .unparse, .type t => t.unparseCalls
  | .nestedUnparse, .exp e => [(.unparse, .exp e)]
  | .nestedUnparse, .loc l => [(.unparse, .loc l)]
  | .nestedUnparse, .id n => [(.unparse, .id n)]
  | .nestedUnparse, _ => []

/-! ## General facts about the renderer -/

theorem doIndent_eq_tabs (k : Nat) : doIndent k = tabs k := by
  induction k with
  | zero => rfl
  | succ k ih =>
    rw [doIndent, ih]
    apply String.ext
    simp [tabs, List.replicate_succ]

theorem concatAll_nil : concatAll [] = "" := rfl

theorem concatAll_cons (s : String) (l : List String) :
    concatAll (s :: l) = s ++ concatAll l := rfl

theorem concatAll_append (l m : List String) :
    concatAll (l ++ m) = concatAll l ++ concatAll m := by
  induction l with
  | nil => simp [concatAll]
  | cons s l ih => simp [concatAll_cons, ih, String.append_assoc]

theorem unparseDecls_eq_concatAll (ds : List DeclNode) (k : Nat) :
    unparseDecls ds k = concatAll (ds.map (fun d => d.unparse k)) := by
  induction ds with
  | nil => simp [unparseDecls, concatAll]
  | cons d ds ih => simp [unparseDecls, concatAll_cons, ih]

theorem unparseStmts_eq_concatAll (ss : List StmtNode) (k : Nat) :
    unparseStmts ss k = concatAll (ss.map (fun s => s.unparse k)) := by
  induction ss with
  | nil => simp [unparseStmts, concatAll]
  | cons s ss ih => simp [unparseStmts, concatAll_cons, ih]

theorem intercalate_go_eq (acc sep : String) (l : List String) :
    String.intercalate.go acc sep l = acc ++ concatAll (l.map (fun a => sep ++ a)) := by
  induction l generalizing acc with
  | nil => simp [String.intercalate.go, concatAll]
  | cons a l ih =>
    simp [String.intercalate.go, ih, concatAll_cons, String.append_assoc]

theorem unparseArgs_false (args : List ExpNode) :
    unparseArgs args false = concatAll (args.map (fun a => ", " ++ a.unparse 0)) := by
  induction args with
  | nil => simp [unparseArgs, concatAll]
  | cons a args ih => simp [unparseArgs, ih, concatAll_cons, String.append_assoc]

theorem unparseArgs_true (args : List ExpNode) :
    unparseArgs args true = ", ".intercalate (args.map (fun a => a.unparse 0)) := by
  cases args with
  | nil => simp [unparseArgs, String.intercalate]
  | cons a args =>
    simp [unparseArgs, String.intercalate, intercalate_go_eq, unparseArgs_false,
      Function.comp_def]

theorem unparseFormals_false (decls : List FormalDeclNode) :
    unparseFormals decls false = concatAll (decls.map (fun d => ", " ++ d.unparse 0)) := by
  induction decls with
  | nil => simp [unparseFormals, concatAll]
  | cons d decls ih => simp [unparseFormals, ih, concatAll_cons, String.append_assoc]

theorem unparseFormals_true (decls : List FormalDeclNode) :
    unparseFormals decls true = ", ".intercalate (decls.map (fun d => d.unparse 0)) := by
  cases decls with
  | nil => simp [unparseFormals, String.intercalate]
  | cons d decls =>
    simp [unparseFormals, String.intercalate, intercalate_go_eq, unparseFormals_false,
      Function.comp_def]

theorem formalDeclNode_unparse_zero (f : FormalDeclNode) :
    f.unparse 0 = f.myID.name ++ " : " ++ f.myType.unparse 0 := by
  simp [FormalDeclNode.unparse, doIndent, IDNode.unparse]

/-! ## Integer literals -/

theorem digitChar_isDigit (m : Nat) (h : m < 10) : (Nat.digitChar m).isDigit = true := by
  interval_cases m <;> rfl

theorem toDigitsCore_isDigit (fuel n : Nat) (ds : List Char)
    (h : ∀ c ∈ ds, c.isDigit = true) :
    ∀ c ∈ Nat.toDigitsCore 10 fuel n ds, c.isDigit = true := by
  induction fuel generalizing n ds with
  | zero => simpa [Nat.toDigitsCore] using h
  | succ fuel ih =>
    have hd : ∀ c ∈ Nat.digitChar (n % 10) :: ds, c.isDigit = true := by
      intro c hc
      rcases List.mem_cons.1 hc with rfl | hc
      · exact digitChar_isDigit _ (Nat.mod_lt _ (by decide))
      · exact h c hc
    simp only [Nat.toDigitsCore]
    split_ifs
    · exact hd
    · exact ih _ _ hd

theorem natRepr_isDigit (n : Nat) : ∀ c ∈ (Nat.repr n).data, c.isDigit = true := by
  intro c hc
  exact toDigitsCore_isDigit _ _ [] (by simp) c (by simpa [Nat.repr, Nat.toDigits] using hc)

/-- Every character written for an `int` is a decimal digit or the minus sign. -/
theorem toString_int_chars (v : Int) :
    ∀ c ∈ (toString v).data, c = '-' ∨ c.isDigit = true := by
  intro c hc
  cases v with
  | ofNat m => exact Or.inr (natRepr_isDigit m c hc)
  | negSucc m =>
    have hc' : c ∈ ("-" ++ Nat.repr (m + 1)).data := hc
    rw [String.data_append, List.mem_append] at hc'
    rcases hc' with hc' | hc'
    · left
      simpa using hc'
    · exact Or.inr (natRepr_isDigit _ c hc')

theorem hasNoLineBreak_append (a b : String) :
    hasNoLineBreak (a ++ b) = (hasNoLineBreak a && hasNoLineBreak b) := by
  simp [hasNoLineBreak, List.all_append]

theorem hasNoLineBreak_toString_int (v : Int) : hasNoLineBreak (toString v) = true := by
  simp only [hasNoLineBreak, List.all_eq_true]
  intro c hc
  rcases toString_int_chars v c hc with rfl | h
  · decide
  · have : c ≠ '\n' := by
      rintro rfl
      exact absurd h (by decide)
    simpa using this

/-! ## Lines and indentation -/

theorem indentFrom_false_append (k : Nat) (xs ys : List Char) (h : ∀ c ∈ xs, c ≠ '\n') :
    indentFrom k false (xs ++ ys) = xs ++ indentFrom k false ys := by
  induction xs with
  | nil => rfl
  | cons c cs ih =>
    have hc : (c == '\n') = false := by simpa using h c (List.mem_cons_self _ _)
    have hcs : ∀ d ∈ cs, d ≠ '\n' := fun d hd => h d (List.mem_cons_of_mem _ hd)
    simp [indentFrom, hc, ih hcs]

theorem indentFrom_true_line (k : Nat) (xs ys : List Char) (h : ∀ c ∈ xs, c ≠ '\n') :
    indentFrom k true (xs ++ '\n' :: ys)
      = List.replicate k '\t' ++ xs ++ '\n' :: indentFrom k true ys := by
  cases xs with
  | nil => simp [indentFrom]
  | cons c cs =>
    have hc : (c == '\n') = false := by simpa using h c (List.mem_cons_self _ _)
    have hcs : ∀ d ∈ cs, d ≠ '\n' := fun d hd => h d (List.mem_cons_of_mem _ hd)
    simp [indentFrom, hc, indentFrom_false_append k cs _ hcs]

theorem indentFrom_append_newline (k : Nat) (b : Bool) (xs ys : List Char) :
    indentFrom k b (xs ++ '\n' :: ys)
      = indentFrom k b (xs ++ ['\n']) ++ indentFrom k true ys := by
  induction xs generalizing b with
  | nil => simp [indentFrom]
  | cons c cs ih => simp [indentFrom, ih (c == '\n')]

theorem indentFrom_false_tabs (k j : Nat) (ys : List Char) :
    indentFrom k false (List.replicate j '\t' ++ ys)
      = List.replicate j '\t' ++ indentFrom k false ys :=
  indentFrom_false_append k _ ys (by
    intro c hc
    rw [List.eq_of_mem_replicate hc]
    decide)

theorem indentFrom_indentFrom (k j : Nat) (b : Bool) (xs : List Char) :
    indentFrom k b (indentFrom j b xs) = indentFrom (k + j) b xs := by
  induction xs generalizing b with
  | nil => rfl
  | cons c cs ih =>
    cases b with
    | false => simp [indentFrom, ih]
    | true =>
      cases j with
      | zero => simp [indentFrom, ih]
      | succ j =>
        have h1 : indentFrom k false (List.replicate j '\t' ++ c :: indentFrom (j + 1) (c == '\n') cs)
            = List.replicate j '\t' ++ c :: indentFrom (k + (j + 1)) (c == '\n') cs := by
          rw [indentFrom_false_tabs]
          simp [indentFrom, ih]
        have h2 : List.replicate (k + (j + 1)) '\t'
            = List.replicate k '\t' ++ '\t' :: List.replicate j '\t' := by
          rw [List.replicate_add, List.replicate_succ]
        simp [indentFrom, List.replicate_succ, h1]
        rw [h2]
        simp

theorem indentLines_empty (k : Nat) : indentLines k "" = "" := rfl

theorem indentLines_line (k : Nat) (l rest : String) (h : hasNoLineBreak l = true) :
    indentLines k (l ++ "\n" ++ rest) = tabs k ++ l ++ "\n" ++ indentLines k rest := by
  apply String.ext
  have h' : ∀ c ∈ l.data, c ≠ '\n' := by simpa [hasNoLineBreak] using h
  have e : ("\n" : String).data = ['\n'] := rfl
  simp [indentLines, tabs, e, indentFrom_true_line k l.data rest.data h']

theorem indentLines_append (k : Nat) (a b : String) (h : a = "" ∨ ∃ t, a = t ++ "\n") :
    indentLines k (a ++ b) = indentLines k a ++ indentLines k b := by
  rcases h with rfl | ⟨t, rfl⟩
  · simp [indentLines_empty]
  · apply String.ext
    have e : ("\n" : String).data = ['\n'] := rfl
    simp [indentLines, e, indentFrom_append_newline k true t.data b.data]

theorem indentLines_indentLines (k j : Nat) (a : String) :
    indentLines k (indentLines j a) = indentLines (k + j) a := by
  simp [indentLines, indentFrom_indentFrom]

/-! ## Expressions and types are written on one line -/

theorem idNode_unparse_noLineBreak (n : IDNode) (i : Nat) (h : n.noLineBreak = true) :
    hasNoLineBreak (n.unparse i) = true := h

theorem locNode_unparse_noLineBreak (l : LocNode) (i : Nat) (h : l.noLineBreak = true) :
    hasNoLineBreak (l.unparse i) = true := by
  induction l generalizing i with
  | ofID id => exact h
  | MemberFieldExpNode loc name ih =>
    simp only [LocNode.noLineBreak, Bool.and_eq_true] at h
    simp +decide [LocNode.unparse, hasNoLineBreak_append, ih 0 h.1,
      idNode_unparse_noLineBreak name 0 h.2]

theorem locNode_nestedUnparse_noLineBreak (l : LocNode) (i : Nat)
    (h : l.noLineBreak = true) : hasNoLineBreak (l.nestedUnparse i) = true := by
  cases l with
  | ofID id => exact h
  | MemberFieldExpNode loc name =>
    simp +decide [LocNode.nestedUnparse, hasNoLineBreak_append,
      locNode_unparse_noLineBreak _ 0 h]

mutual
theorem expNode_unparse_noLineBreak : ∀ (e : ExpNode) (i : Nat), e.noLineBreak = true →
    hasNoLineBreak (e.unparse i) = true ∧ hasNoLineBreak (e.nestedUnparse i) = true
  | .CallExpNode f args, i, h => by
    simp only [ExpNode.noLineBreak, Bool.and_eq_true] at h
    simp +decide [ExpNode.unparse, ExpNode.nestedUnparse, hasNoLineBreak_append,
      locNode_unparse_noLineBreak f 0 h.1, unparseArgs_noLineBreak args true h.2]
  | .FalseNode, i, _ | .TrueNode, i, _ | .MagicNode, i, _ => by
    simp +decide [ExpNode.unparse, ExpNode.nestedUnparse]
  | .IntLitNode v, i, _ => by
    simp [ExpNode.unparse, ExpNode.nestedUnparse, hasNoLineBreak_toString_int]
  | .StrLitNode s, i, h => by
    simp only [ExpNode.noLineBreak] at h
    simp [ExpNode.unparse, ExpNode.nestedUnparse, h]
  | .ofLoc l, i, h => by
    simp only [ExpNode.noLineBreak] at h
    simp [ExpNode.unparse, ExpNode.nestedUnparse, locNode_unparse_noLineBreak l i h,
      locNode_nestedUnparse_noLineBreak l i h]
  | .NegNode e, i, h | .NotNode e, i, h => by
    simp only [ExpNode.noLineBreak] at h
    simp +decide [ExpNode.unparse, ExpNode.nestedUnparse, hasNoLineBreak_append,
      (expNode_unparse_noLineBreak e 0 h).2]
  | .AndNode l r, i, h | .DivideNode l r, i, h | .EqualsNode l r, i, h
  | .GreaterEqNode l r, i, h | .GreaterNode l r, i, h | .LessNode l r, i, h
  | .LessEqNode l r, i, h | .MinusNode l r, i, h | .NotEqualsNode l r, i, h
  | .OrNode l r, i, h | .PlusNode l r, i, h | .TimesNode l r, i, h => by
    simp only [ExpNode.noLineBreak, Bool.and_eq_true] at h
    simp +decide [ExpNode.unparse, ExpNode.nestedUnparse, hasNoLineBreak_append,
      (expNode_unparse_noLineBreak l 0 h.1).2, (expNode_unparse_noLineBreak r 0 h.2).2]
theorem unparseArgs_noLineBreak : ∀ (args : List ExpNode) (firstArg : Bool),
    argsNoLineBreak args = true → hasNoLineBreak (unparseArgs args firstArg) = true
  | [], _, _ => by simp +decide [unparseArgs]
  | a :: rest, firstArg, h => by
    simp only [argsNoLineBreak, Bool.and_eq_true] at h
    cases firstArg <;>
      simp +decide [unparseArgs, hasNoLineBreak_append, (expNode_unparse_noLineBreak a 0 h.1).1,
        unparseArgs_noLineBreak rest false h.2]
end

theorem typeNode_unparse_noLineBreak (t : TypeNode) (i : Nat) (h : t.noLineBreak = true) :
    hasNoLineBreak (t.unparse i) = true := by
  induction t with
  | IntTypeNode | BoolTypeNode | VoidTypeNode => simp +decide [TypeNode.unparse]
  | ClassTypeNode id => exact h
  | PerfectTypeNode type ih =>
    simp only [TypeNode.noLineBreak] at h
    simp +decide [TypeNode.unparse, hasNoLineBreak_append, ih h]

theorem unparseFormals_noLineBreak (decls : List FormalDeclNode) (firstDecl : Bool)
    (h : formalsNoLineBreak decls = true) :
    hasNoLineBreak (unparseFormals decls firstDecl) = true := by
  induction decls generalizing firstDecl with
  | nil => simp +decide [unparseFormals]
  | cons d rest ih =>
    simp only [formalsNoLineBreak, FormalDeclNode.noLineBreak, Bool.and_eq_true] at h
    cases firstDecl <;>
      simp +decide [unparseFormals, FormalDeclNode.unparse, doIndent, hasNoLineBreak_append,
        idNode_unparse_noLineBreak _ 0 h.1.1, typeNode_unparse_noLineBreak _ 0 h.1.2,
        ih false h.2]

/-! ## Statements and declarations are written as complete lines -/

theorem declNode_unparse_endsLine (d : DeclNode) (k : Nat)
    (h : d.formalsInParamLists = true) : ∃ t, d.unparse k = t ++ "\n" := by
  cases d with
  | ClassDeclNode name decls =>
    exact ⟨doIndent k ++ name.unparse k ++ " : class \x7b\n" ++ unparseDecls decls (k + 1)
      ++ doIndent k ++ "\x7d;", by simp [DeclNode.unparse, String.append_assoc]⟩
  | VarDeclNode myID myType myExp =>
    cases myExp with
    | none =>
      exact ⟨doIndent k ++ myID.unparse 0 ++ " : " ++ myType.unparse 0 ++ ";",
        by simp [DeclNode.unparse, String.append_assoc]⟩
    | some exp =>
      exact ⟨doIndent k ++ myID.unparse 0 ++ " : " ++ myType.unparse 0 ++ " = "
        ++ exp.unparse 0 ++ ";", by simp [DeclNode.unparse, String.append_assoc]⟩
  | ofFormal formal => simp [DeclNode.formalsInParamLists] at h
  | FnDeclNode type id decls stmts =>
    exact ⟨doIndent k ++ id.unparse 0 ++ " : (" ++ unparseFormals decls true ++ ") "
      ++ type.unparse 0 ++ " \x7b\n" ++ unparseStmts stmts (k + 1) ++ doIndent k ++ "\x7d",
      by simp [DeclNode.unparse, String.append_assoc]⟩

theorem stmtNode_unparse_endsLine (s : StmtNode) (k : Nat)
    (h : s.formalsInParamLists = true) : ∃ t, s.unparse k = t ++ "\n" := by
  cases s with
  | AssignStmtNode dest exp =>
    exact ⟨doIndent k ++ dest.unparse 0 ++ " = " ++ exp.unparse 0 ++ ";",
      by simp [StmtNode.unparse, String.append_assoc]⟩
  | CallStmtNode f args =>
    exact ⟨doIndent k ++ (ExpNode.CallExpNode f args).unparse 0 ++ ";",
      by simp [StmtNode.unparse, String.append_assoc]⟩
  | ExitStmtNode =>
    exact ⟨doIndent k ++ "today I don't feel like doing any work;",
      by simp [StmtNode.unparse, String.append_assoc]⟩
  | GiveStmtNode exp =>
    exact ⟨doIndent k ++ "give " ++ exp.unparse 0 ++ ";",
      by simp [StmtNode.unparse, String.append_assoc]⟩
  | IfElseStmtNode c t f =>
    exact ⟨doIndent k ++ "if (" ++ c.unparse 0 ++ ") \x7b\n" ++ unparseStmts t (k + 1)
      ++ doIndent k ++ "\x7d else \x7b\n" ++ unparseStmts f (k + 1) ++ doIndent k ++ "\x7d",
      by simp [StmtNode.unparse, String.append_assoc]⟩
  | IfStmtNode c ss =>
    exact ⟨doIndent k ++ "if (" ++ c.unparse 0 ++ ") \x7b\n" ++ unparseStmts ss (k + 1)
      ++ doIndent k ++ "\x7d", by simp [StmtNode.unparse, String.append_assoc]⟩
  | PostDecStmtNode loc =>
    exact ⟨doIndent k ++ loc.unparse 0 ++ "--;",
      by simp [StmtNode.unparse, String.append_assoc]⟩
  | PostIncStmtNode loc =>
    exact ⟨doIndent k ++ loc.unparse 0 ++ "++;",
      by simp [StmtNode.unparse, String.append_assoc]⟩
  | ReturnStmtNode exp =>
    exact ⟨doIndent k ++ "return " ++ exp.unparse 0 ++ ";",
      by simp [StmtNode.unparse, String.append_assoc]⟩
  | TakeStmtNode loc =>
    exact ⟨doIndent k ++ "take " ++ loc.unparse 0 ++ ";",
      by simp [StmtNode.unparse, String.append_assoc]⟩
  | WhileStmtNode c ss =>
    exact ⟨doIndent k ++ "while (" ++ c.unparse 0 ++ ") \x7b\n" ++ unparseStmts ss (k + 1)
      ++ doIndent k ++ "\x7d", by simp [StmtNode.unparse, String.append_assoc]⟩
  | ofDecl d =>
    simp only [StmtNode.formalsInParamLists] at h
    simpa [StmtNode.unparse] using declNode_unparse_endsLine d k h

theorem endsLine_append (a b : String) (ha : a = "" ∨ ∃ t, a = t ++ "\n")
    (hb : b = "" ∨ ∃ t, b = t ++ "\n") : a ++ b = "" ∨ ∃ t, a ++ b = t ++ "\n" := by
  rcases hb with rfl | ⟨t, rfl⟩
  · simpa using ha
  · exact Or.inr ⟨a ++ t, by simp [String.append_assoc]⟩

theorem unparseStmts_endsLine (ss : List StmtNode) (k : Nat)
    (h : stmtsFormalsInParamLists ss = true) :
    unparseStmts ss k = "" ∨ ∃ t, unparseStmts ss k = t ++ "\n" := by
  induction ss with
  | nil => simp [unparseStmts]
  | cons s rest ih =>
    simp only [stmtsFormalsInParamLists, Bool.and_eq_true] at h
    rw [unparseStmts]
    exact endsLine_append _ _ (Or.inr (stmtNode_unparse_endsLine s k h.1)) (ih h.2)

theorem unparseDecls_endsLine (ds : List DeclNode) (k : Nat)
    (h : declsFormalsInParamLists ds = true) :
    unparseDecls ds k = "" ∨ ∃ t, unparseDecls ds k = t ++ "\n" := by
  induction ds with
  | nil => simp [unparseDecls]
  | cons d rest ih =>
    simp only [declsFormalsInParamLists, Bool.and_eq_true] at h
    rw [unparseDecls]
    exact endsLine_append _ _ (Or.inr (declNode_unparse_endsLine d k h.1)) (ih h.2)

/-! ## Rendering at depth `k` against rendering at depth 0 -/

theorem indent_one_line (k : Nat) (body u0 uk : String) (h : hasNoLineBreak body = true)
    (h0 : u0 = body ++ "\n" ++ "") (hk : uk = tabs k ++ body ++ "\n" ++ "") :
    uk = indentLines k u0 := by
  rw [h0, hk, indentLines_line k body "" h, indentLines_empty]

theorem indent_block (k : Nat) (header body1 bodyk closer u0 uk : String)
    (hh : hasNoLineBreak header = true) (hc : hasNoLineBreak closer = true)
    (hl : body1 = "" ∨ ∃ t, body1 = t ++ "\n") (hb : bodyk = indentLines k body1)
    (h0 : u0 = header ++ "\n" ++ (body1 ++ (closer ++ "\n" ++ "")))
    (hk : uk = tabs k ++ header ++ "\n" ++ (bodyk ++ (tabs k ++ closer ++ "\n" ++ ""))) :
    uk = indentLines k u0 := by
  rw [h0, hk, indentLines_line k header _ hh, indentLines_append k body1 _ hl,
    indentLines_line k closer "" hc, indentLines_empty, hb]

theorem indent_shift (k : Nat) (body : Nat → String)
    (h : ∀ j, body j = indentLines j (body 0)) : body (k + 1) = indentLines k (body 1) := by
  rw [h 1, indentLines_indentLines, ← h (k + 1)]

mutual
theorem stmtNode_unparse_indent : ∀ (s : StmtNode) (k : Nat), s.noLineBreak = true →
    s.formalsInParamLists = true → s.unparse k = indentLines k (s.unparse 0)
  | .AssignStmtNode dest exp, k, h, _ => by
    simp only [StmtNode.noLineBreak, Bool.and_eq_true] at h
    refine indent_one_line k (dest.unparse 0 ++ " = " ++ exp.unparse 0 ++ ";") _ _ ?_ ?_ ?_
    · simp +decide [hasNoLineBreak_append, locNode_unparse_noLineBreak dest 0 h.1,
        (expNode_unparse_noLineBreak exp 0 h.2).1]
    · simp [StmtNode.unparse, doIndent, String.append_assoc]
    · simp [StmtNode.unparse, doIndent_eq_tabs, String.append_assoc]
  | .CallStmtNode f args, k, h, _ => by
    refine indent_one_line k ((ExpNode.CallExpNode f args).unparse 0 ++ ";") _ _ ?_ ?_ ?_
    · simp +decide [hasNoLineBreak_append,
        (expNode_unparse_noLineBreak (.CallExpNode f args) 0
          (by simpa [StmtNode.noLineBreak, ExpNode.noLineBreak] using h)).1]
    · simp [StmtNode.unparse, doIndent, String.append_assoc]
    · simp [StmtNode.unparse, doIndent_eq_tabs, String.append_assoc]
  | .ExitStmtNode, k, _, _ => by
    refine indent_one_line k "today I don't feel like doing any work;" _ _ ?_ ?_ ?_
    · decide
    · simp [StmtNode.unparse, doIndent, String.append_assoc]
    · simp [StmtNode.unparse, doIndent_eq_tabs, String.append_assoc]
  | .GiveStmtNode exp, k, h, _ => by
    simp only [StmtNode.noLineBreak] at h
    refine indent_one_line k ("give " ++ exp.unparse 0 ++ ";") _ _ ?_ ?_ ?_
    · simp +decide [hasNoLineBreak_append, (expNode_unparse_noLineBreak exp 0 h).1]
    · simp [StmtNode.unparse, doIndent, String.append_assoc]
    · simp [StmtNode.unparse, doIndent_eq_tabs, String.append_assoc]
  | .IfElseStmtNode c t f, k, h, hf => by
    simp only [StmtNode.noLineBreak, Bool.and_eq_true] at h
    simp only [StmtNode.formalsInParamLists, Bool.and_eq_true] at hf
    have hc : hasNoLineBreak ("if (" ++ c.unparse 0 ++ ") \x7b") = true := by
      simp +decide [hasNoLineBreak_append, (expNode_unparse_noLineBreak c 0 h.1.1).1]
    have ht := indent_shift k (unparseStmts t) (fun j => unparseStmts_indent t j h.1.2 hf.1)
    have hf' := indent_shift k (unparseStmts f) (fun j => unparseStmts_indent f j h.2 hf.2)
    have h0 : (StmtNode.IfElseStmtNode c t f).unparse 0
        = ("if (" ++ c.unparse 0 ++ ") \x7b") ++ "\n" ++ (unparseStmts t 1
            ++ ("\x7d else \x7b" ++ "\n" ++ (unparseStmts f 1 ++ ("\x7d" ++ "\n" ++ "")))) := by
      simp [StmtNode.unparse, doIndent, String.append_assoc]
    rw [h0, indentLines_line k _ _ hc,
      indentLines_append k _ _ (unparseStmts_endsLine t 1 hf.1),
      indentLines_line k "\x7d else \x7b" _ (by decide),
      indentLines_append k _ _ (unparseStmts_endsLine f 1 hf.2),
      indentLines_line k "\x7d" _ (by decide), indentLines_empty, ← ht, ← hf']
    simp [StmtNode.unparse, doIndent_eq_tabs, String.append_assoc]
  | .IfStmtNode c ss, k, h, hf => by
    simp only [StmtNode.noLineBreak, Bool.and_eq_true] at h
    simp only [StmtNode.formalsInParamLists] at hf
    refine indent_block k ("if (" ++ c.unparse 0 ++ ") \x7b") (unparseStmts ss 1)
      (unparseStmts ss (k + 1)) "\x7d" _ _ ?_ (by decide) (unparseStmts_endsLine ss 1 hf)
      (indent_shift k (unparseStmts ss) (fun j => unparseStmts_indent ss j h.2 hf)) ?_ ?_
    · simp +decide [hasNoLineBreak_append, (expNode_unparse_noLineBreak c 0 h.1).1]
    · simp [StmtNode.unparse, doIndent, String.append_assoc]
    · simp [StmtNode.unparse, doIndent_eq_tabs, String.append_assoc]
  | .PostDecStmtNode loc, k, h, _ => by
    simp only [StmtNode.noLineBreak] at h
    refine indent_one_line k (loc.unparse 0 ++ "--;") _ _ ?_ ?_ ?_
    · simp +decide [hasNoLineBreak_append, locNode_unparse_noLineBreak loc 0 h]
    · simp [StmtNode.unparse, doIndent, String.append_assoc]
    · simp [StmtNode.unparse, doIndent_eq_tabs, String.append_assoc]
  | .PostIncStmtNode loc, k, h, _ => by
    simp only [StmtNode.noLineBreak] at h
    refine indent_one_line k (loc.unparse 0 ++ "++;") _ _ ?_ ?_ ?_
    · simp +decide [hasNoLineBreak_append, locNode_unparse_noLineBreak loc 0 h]
    · simp [StmtNode.unparse, doIndent, String.append_assoc]
    · simp [StmtNode.unparse, doIndent_eq_tabs, String.append_assoc]
  | .ReturnStmtNode exp, k, h, _ => by
    simp only [StmtNode.noLineBreak] at h
    refine indent_one_line k ("return " ++ exp.unparse 0 ++ ";") _ _ ?_ ?_ ?_
    · simp +decide [hasNoLineBreak_append, (expNode_unparse_noLineBreak exp 0 h).1]
    · simp [StmtNode.unparse, doIndent, String.append_assoc]
    · simp [StmtNode.unparse, doIndent_eq_tabs, String.append_assoc]
  | .TakeStmtNode loc, k, h, _ => by
    simp only [StmtNode.noLineBreak] at h
    refine indent_one_line k ("take " ++ loc.unparse 0 ++ ";") _ _ ?_ ?_ ?_
    · simp +decide [hasNoLineBreak_append, locNode_unparse_noLineBreak loc 0 h]
    · simp [StmtNode.unparse, doIndent, String.append_assoc]
    · simp [StmtNode.unparse, doIndent_eq_tabs, String.append_assoc]
  | .WhileStmtNode c ss, k, h, hf => by
    simp only [StmtNode.noLineBreak, Bool.and_eq_true] at h
    simp only [StmtNode.formalsInParamLists] at hf
    refine indent_block k ("while (" ++ c.unparse 0 ++ ") \x7b") (unparseStmts ss 1)
      (unparseStmts ss (k + 1)) "\x7d" _ _ ?_ (by decide) (unparseStmts_endsLine ss 1 hf)
      (indent_shift k (unparseStmts ss) (fun j => unparseStmts_indent ss j h.2 hf)) ?_ ?_
    · simp +decide [hasNoLineBreak_append, (expNode_unparse_noLineBreak c 0 h.1).1]
    · simp [StmtNode.unparse, doIndent, String.append_assoc]
    · simp [StmtNode.unparse, doIndent_eq_tabs, String.append_assoc]
  | .ofDecl d, k, h, hf => by
    simp only [StmtNode.noLineBreak] at h
    simp only [StmtNode.formalsInParamLists] at hf
    simpa [StmtNode.unparse] using declNode_unparse_indent d k h hf
theorem declNode_unparse_indent : ∀ (d : DeclNode) (k : Nat), d.noLineBreak = true →
    d.formalsInParamLists = true → d.unparse k = indentLines k (d.unparse 0)
  | .ClassDeclNode name ds, k, h, hf => by
    simp only [DeclNode.noLineBreak, Bool.and_eq_true] at h
    simp only [DeclNode.formalsInParamLists] at hf
    refine indent_block k (name.unparse 0 ++ " : class \x7b") (unparseDecls ds 1)
      (unparseDecls ds (k + 1)) "\x7d;" _ _ ?_ (by decide) (unparseDecls_endsLine ds 1 hf)
      (indent_shift k (unparseDecls ds) (fun j => unparseDecls_indent ds j h.2 hf)) ?_ ?_
    · simp +decide [hasNoLineBreak_append, idNode_unparse_noLineBreak name 0 h.1]
    · simp [DeclNode.unparse, doIndent, IDNode.unparse, String.append_assoc]
    · simp [DeclNode.unparse, doIndent_eq_tabs, IDNode.unparse, String.append_assoc]
  | .VarDeclNode myID myType none, k, h, _ => by
    simp only [DeclNode.noLineBreak, Bool.and_eq_true] at h
    refine indent_one_line k (myID.unparse 0 ++ " : " ++ myType.unparse 0 ++ ";") _ _ ?_ ?_ ?_
    · simp +decide [hasNoLineBreak_append, idNode_unparse_noLineBreak myID 0 h.1,
        typeNode_unparse_noLineBreak myType 0 h.2]
    · simp [DeclNode.unparse, doIndent, String.append_assoc]
    · simp [DeclNode.unparse, doIndent_eq_tabs, String.append_assoc]
  | .VarDeclNode myID myType (some exp), k, h, _ => by
    simp only [DeclNode.noLineBreak, Bool.and_eq_true] at h
    refine indent_one_line k
      (myID.unparse 0 ++ " : " ++ myType.unparse 0 ++ " = " ++ exp.unparse 0 ++ ";") _ _
      ?_ ?_ ?_
    · simp +decide [hasNoLineBreak_append, idNode_unparse_noLineBreak myID 0 h.1.1,
        typeNode_unparse_noLineBreak myType 0 h.1.2, (expNode_unparse_noLineBreak exp 0 h.2).1]
    · simp [DeclNode.unparse, doIndent, String.append_assoc]
    · simp [DeclNode.unparse, doIndent_eq_tabs, String.append_assoc]
  | .ofFormal _, _, _, hf => by simp [DeclNode.formalsInParamLists] at hf
  | .FnDeclNode type id ps ss, k, h, hf => by
    simp only [DeclNode.noLineBreak, Bool.and_eq_true] at h
    simp only [DeclNode.formalsInParamLists] at hf
    refine indent_block k
      (id.unparse 0 ++ " : (" ++ unparseFormals ps true ++ ") " ++ type.unparse 0 ++ " \x7b")
      (unparseStmts ss 1) (unparseStmts ss (k + 1)) "\x7d" _ _ ?_ (by decide)
      (unparseStmts_endsLine ss 1 hf)
      (indent_shift k (unparseStmts ss) (fun j => unparseStmts_indent ss j h.2 hf)) ?_ ?_
    · simp +decide [hasNoLineBreak_append, idNode_unparse_noLineBreak id 0 h.1.1.2,
        typeNode_unparse_noLineBreak type 0 h.1.1.1, unparseFormals_noLineBreak ps true h.1.2]
    · simp [DeclNode.unparse, doIndent, String.append_assoc]
    · simp [DeclNode.unparse, doIndent_eq_tabs, String.append_assoc]
theorem unparseStmts_indent : ∀ (ss : List StmtNode) (k : Nat), stmtsNoLineBreak ss = true →
    stmtsFormalsInParamLists ss = true → unparseStmts ss k = indentLines k (unparseStmts ss 0)
  | [], k, _, _ => by simp [unparseStmts, indentLines_empty]
  | s :: rest, k, h, hf => by
    simp only [stmtsNoLineBreak, Bool.and_eq_true] at h
    simp only [stmtsFormalsInParamLists, Bool.and_eq_true] at hf
    rw [unparseStmts, unparseStmts,
      indentLines_append k _ _ (Or.inr (stmtNode_unparse_endsLine s 0 hf.1)),
      ← stmtNode_unparse_indent s k h.1 hf.1, ← unparseStmts_indent rest k h.2 hf.2]
theorem unparseDecls_indent : ∀ (ds : List DeclNode) (k : Nat), declsNoLineBreak ds = true →
    declsFormalsInParamLists ds = true → unparseDecls ds k = indentLines k (unparseDecls ds 0)
  | [], k, _, _ => by simp [unparseDecls, indentLines_empty]
  | d :: rest, k, h, hf => by
    simp only [declsNoLineBreak, Bool.and_eq_true] at h
    simp only [declsFormalsInParamLists, Bool.and_eq_true] at hf
    rw [unparseDecls, unparseDecls,
      indentLines_append k _ _ (Or.inr (declNode_unparse_endsLine d 0 hf.1)),
      ← declNode_unparse_indent d k h.1 hf.1, ← unparseDecls_indent rest k h.2 hf.2]
end

theorem linesOf_cons_ne (c : Char) (cs : List Char) (h : (c == '\n') = false) :
    linesOf (c :: cs) = (c :: (linesOf cs).headD []) :: (linesOf cs).tail := by
  rw [linesOf, h]
  cases linesOf cs <;> simp

theorem linesOf_tabs_append (k : Nat) (c : Char) (cs : List Char) :
    linesOf (List.replicate k '\t' ++ c :: cs)
      = (List.replicate k '\t' ++ (linesOf (c :: cs)).headD [])
          :: (linesOf (c :: cs)).tail := by
  induction k with
  | zero =>
    by_cases h : (c == '\n') = true
    · simp [linesOf, h]
    · simp [linesOf_cons_ne c cs (by simpa using h)]
  | succ k ih =>
    rw [List.replicate_succ, List.cons_append, linesOf_cons_ne _ _ (by decide), ih]
    simp

theorem linesOf_indentFrom (k : Nat) (xs : List Char) (b : Bool) :
    (b = true → xs ≠ [] →
        List.replicate k '\t' <+: (linesOf (indentFrom k b xs)).headD [])
    ∧ ∀ l ∈ (linesOf (indentFrom k b xs)).tail, List.replicate k '\t' <+: l := by
  induction xs generalizing b with
  | nil => simp [indentFrom, linesOf]
  | cons c cs ih =>
    have key : (∀ l ∈ (linesOf (c :: indentFrom k (c == '\n') cs)).tail,
        List.replicate k '\t' <+: l) := by
      cases h : (c == '\n') with
      | true =>
        intro l hl
        simp only [linesOf, h, if_true, List.tail_cons] at hl
        have h' := ih true
        cases cs with
        | nil => simp [indentFrom, linesOf] at hl
        | cons d ds =>
          have h1 := h'.1 rfl (by simp)
          have h2 := h'.2
          cases hlo : linesOf (indentFrom k true (d :: ds)) with
          | nil => simp [hlo] at hl
          | cons l0 ls =>
            rw [hlo] at h1 h2 hl
            rcases List.mem_cons.1 hl with rfl | hl
            · simpa using h1
            · exact h2 l (by simpa using hl)
      | false =>
        rw [linesOf_cons_ne c _ h]
        simpa using (ih false).2
    cases b with
    | false =>
      refine ⟨by simp, ?_⟩
      simpa [indentFrom] using key
    | true =>
      have e : indentFrom k true (c :: cs)
          = List.replicate k '\t' ++ c :: indentFrom k (c == '\n') cs := by
        simp [indentFrom]
      rw [e, linesOf_tabs_append]
      refine ⟨fun _ _ => ?_, ?_⟩
      · simp
      · simpa using key

/-- Every line of an indented text starts with the inserted tabs. -/
theorem linesOf_indentLines (k : Nat) (text : String) :
    ∀ l ∈ linesOf (indentLines k text).data, List.replicate k '\t' <+: l := by
  intro l hl
  have h := linesOf_indentFrom k text.data true
  cases ht : text.data with
  | nil => simp [indentLines, ht, indentFrom, linesOf] at hl
  | cons c cs =>
    rw [ht] at h
    have hl' : l ∈ linesOf (indentFrom k true (c :: cs)) := by
      simpa [indentLines, ht] using hl
    cases hlo : linesOf (indentFrom k true (c :: cs)) with
    | nil => simp [hlo] at hl'
    | cons l0 ls =>
      rw [hlo] at h hl'
      rcases List.mem_cons.1 hl' with rfl | hl'
      · simpa using h.1 rfl (by simp)
      · exact h.2 l (by simpa using hl')

/-! ## Parenthesization -/

/-- C1, at the failing input: the member-field access `a--b` is rendered bare at top level
but inside one pair of parentheses in operand position, unlike the identifier `a`, whose
operand-position rendering equals its top-level rendering. -/
theorem C1_memberField_operand_parenthesized :
    (ExpNode.ofLoc (.MemberFieldExpNode (.ofID ⟨"a"⟩) ⟨"b"⟩)).unparse 0 = "a--b"
    ∧ (ExpNode.ofLoc (.MemberFieldExpNode (.ofID ⟨"a"⟩) ⟨"b"⟩)).nestedUnparse 0 = "(a--b)"
    ∧ (ExpNode.ofLoc (.ofID ⟨"a"⟩)).nestedUnparse 0 = (ExpNode.ofLoc (.ofID ⟨"a"⟩)).unparse 0 := by
  simp [ExpNode.unparse, ExpNode.nestedUnparse, LocNode.unparse, LocNode.nestedUnparse,
    IDNode.unparse, IDNode.nestedUnparse]

/-- C2: for every unary or binary expression the operand-position rendering is `(`, the
top-level rendering, `)`, whatever depth is passed to either method. -/
theorem C2_nestedUnparse_composite (e : ExpNode) (i j : Nat)
    (h : e.isUnaryOrBinary = true) :
    e.nestedUnparse i = "(" ++ e.unparse j ++ ")" := by
  cases e <;> simp [ExpNode.isUnaryOrBinary] at h <;>
    simp [ExpNode.nestedUnparse, ExpNode.unparse]

/-- C2 at the operand `2 * -3`. -/
theorem C2_nestedUnparse_composite_witness :
    (ExpNode.TimesNode (.IntLitNode 2) (.NegNode (.IntLitNode 3))).isUnaryOrBinary = true
    ∧ (ExpNode.TimesNode (.IntLitNode 2) (.NegNode (.IntLitNode 3))).nestedUnparse 0
        = "(" ++ (ExpNode.TimesNode (.IntLitNode 2) (.NegNode (.IntLitNode 3))).unparse 0
            ++ ")" :=
  ⟨rfl, C2_nestedUnparse_composite _ 0 0 rfl⟩

/-- C3: a binary expression renders as the operand-position rendering of the left operand,
a space, the operator's spelling, a space, the operand-position rendering of the right
operand, and nothing around the whole; `Plus(1, Times(2, 3))` renders as `1 + (2 * 3)`. -/
theorem C3_binary_unparse :
    (∀ (op : BinOp) (l r : ExpNode) (k : Nat),
      (op.node l r).unparse k
        = l.nestedUnparse 0 ++ " " ++ op.spelling ++ " " ++ r.nestedUnparse 0)
    ∧ (ExpNode.PlusNode (.IntLitNode 1) (.TimesNode (.IntLitNode 2) (.IntLitNode 3))).unparse 0
        = "1 + (2 * 3)" := by
  constructor
  · intro op l r k
    cases op <;>
      simp [BinOp.node, BinOp.spelling, ExpNode.unparse, String.append_assoc]
  · simp [ExpNode.unparse, ExpNode.nestedUnparse]
    decide

/-! ## Programs -/

/-- C5: a program renders as its declarations' renderings at the same depth, one after the
other in list order; the rendering of `xs ++ ys` is that of `xs` followed by that of `ys`,
and the empty program renders as the empty text. -/
theorem C5_program_unparse :
    (∀ (ds : List DeclNode) (k : Nat),
      (ProgramNode.mk ds).unparse k = concatAll (ds.map (fun d => d.unparse k)))
    ∧ (∀ (xs ys : List DeclNode) (k : Nat),
      (ProgramNode.mk (xs ++ ys)).unparse k
        = (ProgramNode.mk xs).unparse k ++ (ProgramNode.mk ys).unparse k)
    ∧ (∀ k : Nat, (ProgramNode.mk []).unparse k = "") := by
  refine ⟨fun ds k => unparseDecls_eq_concatAll ds k, fun xs ys k => ?_, fun k => ?_⟩
  · simp [ProgramNode.unparse, unparseDecls_eq_concatAll, concatAll_append]
  · simp [ProgramNode.unparse, unparseDecls]

/-! ## Declarations -/

/-- C6: a variable declaration renders as `k` tabs, the identifier, ` : `, the type, then
` = ` and the top-level rendering of the initializer when there is one, then `;` and a
line break. -/
theorem C6_varDecl_unparse :
    (∀ (id : IDNode) (t : TypeNode) (k : Nat),
      (DeclNode.VarDeclNode id t none).unparse k
        = tabs k ++ id.name ++ " : " ++ t.unparse 0 ++ ";\n")
    ∧ (∀ (id : IDNode) (t : TypeNode) (e : ExpNode) (k : Nat),
      (DeclNode.VarDeclNode id t (some e)).unparse k
        = tabs k ++ id.name ++ " : " ++ t.unparse 0 ++ " = " ++ e.unparse 0 ++ ";\n")
    ∧ (DeclNode.VarDeclNode ⟨"x"⟩ .IntTypeNode none).unparse 0 = "x : int;\n"
    ∧ (DeclNode.VarDeclNode ⟨"x"⟩ .IntTypeNode (some (.IntLitNode 5))).unparse 0
        = "x : int = 5;\n" := by
  refine ⟨fun id t k => ?_, fun id t e k => ?_, ?_, ?_⟩
  · simp [DeclNode.unparse, doIndent_eq_tabs, IDNode.unparse]
  · simp [DeclNode.unparse, doIndent_eq_tabs, IDNode.unparse, String.append_assoc]
  · simp [DeclNode.unparse, doIndent, IDNode.unparse, TypeNode.unparse]
  · simp [DeclNode.unparse, doIndent, IDNode.unparse, TypeNode.unparse, ExpNode.unparse]
    decide

/-- C9: a function declaration renders as `k` tabs, the name, ` : (`, the formals each as
`name : type` joined by `, `, `) `, the return type, ` {` and a line break, the body
statements at depth `k + 1` in order, then `k` tabs, `}` and a line break; without
formals the parameter region is `()`. -/
theorem C9_fnDecl_unparse :
    (∀ (t : TypeNode) (id : IDNode) (ps : List FormalDeclNode) (ss : List StmtNode)
        (k : Nat),
      (DeclNode.FnDeclNode t id ps ss).unparse k
        = tabs k ++ id.name ++ " : ("
            ++ ", ".intercalate (ps.map (fun p => p.myID.name ++ " : " ++ p.myType.unparse 0))
            ++ ") " ++ t.unparse 0 ++ " \x7b\n"
            ++ concatAll (ss.map (fun s => s.unparse (k + 1)))
            ++ tabs k ++ "\x7d\n")
    ∧ (∀ (t : TypeNode) (id : IDNode) (ss : List StmtNode) (k : Nat),
      (DeclNode.FnDeclNode t id [] ss).unparse k
        = tabs k ++ id.name ++ " : () " ++ t.unparse 0 ++ " \x7b\n"
            ++ concatAll (ss.map (fun s => s.unparse (k + 1)))
            ++ tabs k ++ "\x7d\n") := by
  refine ⟨fun t id ps ss k => ?_, fun t id ss k => ?_⟩
  · simp [DeclNode.unparse, doIndent_eq_tabs, IDNode.unparse, unparseFormals_true,
      unparseStmts_eq_concatAll, formalDeclNode_unparse_zero, String.append_assoc]
  · simp [DeclNode.unparse, doIndent_eq_tabs, IDNode.unparse, unparseFormals,
      unparseStmts_eq_concatAll, String.append_assoc]

/-- C10, as the claim states it, fails: the class `C` without members is not rendered
with the closing line `}`. -/
theorem C10_class_closer_counterexample :
    (DeclNode.ClassDeclNode ⟨"C"⟩ []).unparse 0
      ≠ tabs 0 ++ "C" ++ " : class \x7b\n" ++ concatAll [] ++ tabs 0 ++ "\x7d\n" := by
  simp [DeclNode.unparse, doIndent, IDNode.unparse, unparseDecls, tabs, concatAll]

/-- C10, amended: a class declaration renders as `k` tabs, the name, ` : class {` and a
line break, the members at depth `k + 1` in order, then `k` tabs, `};` and a line
break. -/
theorem C10_classDecl_unparse (id : IDNode) (ms : List DeclNode) (k : Nat) :
    (DeclNode.ClassDeclNode id ms).unparse k
      = tabs k ++ id.name ++ " : class \x7b\n"
          ++ concatAll (ms.map (fun m => m.unparse (k + 1)))
          ++ tabs k ++ "\x7d;\n" := by
  simp [DeclNode.unparse, doIndent_eq_tabs, IDNode.unparse, unparseDecls_eq_concatAll,
    String.append_assoc]

/-! ## Calls -/

/-- C7: a call renders as the callee, `(`, the top-level renderings of the arguments
joined by `, `, and `)`; without arguments it is the callee followed by `()`, and the
call statement of `f()` at depth 0 is `f();` and a line break. -/
theorem C7_call_unparse :
    (∀ (f : LocNode) (args : List ExpNode) (k : Nat),
      (ExpNode.CallExpNode f args).unparse k
        = f.unparse 0 ++ "(" ++ ", ".intercalate (args.map (fun a => a.unparse 0)) ++ ")")
    ∧ (∀ (f : LocNode) (k : Nat), (ExpNode.CallExpNode f []).unparse k = f.unparse 0 ++ "()")
    ∧ (StmtNode.CallStmtNode (.ofID ⟨"f"⟩) []).unparse 0 = "f();\n"
    ∧ (ExpNode.CallExpNode (.ofID ⟨"f"⟩)
          [.IntLitNode 1, .PlusNode (.IntLitNode 2) (.IntLitNode 3)]).unparse 0
        = "f(1, 2 + 3)" := by
  refine ⟨fun f args k => ?_, fun f k => ?_, ?_, ?_⟩
  · simp [ExpNode.unparse, unparseArgs_true]
  · simp [ExpNode.unparse, unparseArgs, String.append_assoc]
  · simp [StmtNode.unparse, ExpNode.unparse, unparseArgs, doIndent, LocNode.unparse,
      IDNode.unparse]
  · simp [ExpNode.unparse, ExpNode.nestedUnparse, unparseArgs, LocNode.unparse,
      IDNode.unparse]
    decide

/-! ## Two-branch conditionals -/

/-- C8, as the claim states it, fails: `if (true)` with two empty branches is not rendered
with `else` on a line of its own. -/
theorem C8_else_own_line_counterexample :
    (StmtNode.IfElseStmtNode .TrueNode [] []).unparse 0
      ≠ "if (" ++ ExpNode.TrueNode.unparse 0 ++ ") \x7b\n\x7d\nelse \x7b\n\x7d\n" := by
  simp [StmtNode.unparse, ExpNode.unparse, unparseStmts, doIndent]

/-- C8, amended: an if/else with two empty branches renders at depth 0 as `if (`, the
condition, `) {`, a line break, `} else {`, a line break, `}`, a line break. -/
theorem C8_ifElse_empty_unparse (c : ExpNode) :
    (StmtNode.IfElseStmtNode c [] []).unparse 0
      = "if (" ++ c.unparse 0 ++ ") \x7b\n\x7d else \x7b\n\x7d\n" := by
  simp [StmtNode.unparse, unparseStmts, doIndent, String.append_assoc]

/-! ## The lines of a block -/

theorem linesOf_ne_nil (c : Char) (cs : List Char) : linesOf (c :: cs) ≠ [] := by
  rw [linesOf]
  split_ifs
  · simp
  · cases linesOf cs <;> simp

theorem linesOf_line_cons (xs rest : List Char) (h : ∀ c ∈ xs, c ≠ '\n') :
    linesOf (xs ++ '\n' :: rest) = (xs ++ ['\n']) :: linesOf rest := by
  induction xs with
  | nil => simp [linesOf]
  | cons c cs ih =>
    have hc : (c == '\n') = false := by simpa using h c (List.mem_cons_self _ _)
    have hcs : ∀ d ∈ cs, d ≠ '\n' := fun d hd => h d (List.mem_cons_of_mem _ hd)
    rw [List.cons_append, linesOf_cons_ne _ _ hc, ih hcs]
    simp

theorem linesOf_append_newline (xs ys : List Char) :
    linesOf (xs ++ '\n' :: ys) = linesOf (xs ++ ['\n']) ++ linesOf ys := by
  induction xs with
  | nil => simp [linesOf]
  | cons c cs ih =>
    by_cases hc : (c == '\n') = true
    · simp [linesOf, hc, ih]
    · have hc' : (c == '\n') = false := by simpa using hc
      rw [List.cons_append, List.cons_append, linesOf_cons_ne _ _ hc', linesOf_cons_ne _ _ hc',
        ih]
      cases hl : linesOf (cs ++ ['\n']) with
      | nil =>
        cases cs with
        | nil => simp [linesOf] at hl
        | cons d ds => exact absurd hl (linesOf_ne_nil _ _)
      | cons l ls => simp

theorem hasNoLineBreak_tabs (j : Nat) : hasNoLineBreak (tabs j) = true := by
  simp only [hasNoLineBreak, tabs, List.all_eq_true]
  intro c hc
  rw [List.eq_of_mem_replicate hc]
  decide

theorem linesOf_str_line (l rest : String) (h : hasNoLineBreak l = true) :
    linesOf (l ++ "\n" ++ rest).data = (l ++ "\n").data :: linesOf rest.data := by
  have h' : ∀ c ∈ l.data, c ≠ '\n' := by simpa [hasNoLineBreak] using h
  have e : ("\n" : String).data = ['\n'] := rfl
  simp only [String.data_append, e, List.append_assoc, List.singleton_append]
  exact linesOf_line_cons l.data rest.data h'

theorem linesOf_str_append (a b : String) (h : a = "" ∨ ∃ t, a = t ++ "\n") :
    linesOf (a ++ b).data = linesOf a.data ++ linesOf b.data := by
  rcases h with rfl | ⟨t, rfl⟩
  · simp [linesOf]
  · have e : ("\n" : String).data = ['\n'] := rfl
    simp only [String.data_append, e, List.append_assoc, List.singleton_append]
    exact linesOf_append_newline t.data b.data

theorem isBlockAt_intro (j : Nat) (text opener body closer : String)
    (ho : hasNoLineBreak opener = true) (hc : hasNoLineBreak closer = true)
    (hb : body = "" ∨ ∃ t, body = t ++ "\n")
    (hl : ∀ l ∈ linesOf body.data, List.replicate (j + 1) '\t' <+: l)
    (ht : text = (tabs j ++ opener) ++ "\n" ++ (body ++ ((tabs j ++ closer) ++ "\n" ++ ""))) :
    IsBlockAt j text opener body closer := by
  refine ⟨?_, hl⟩
  have h1 : hasNoLineBreak (tabs j ++ opener) = true := by
    rw [hasNoLineBreak_append, hasNoLineBreak_tabs, ho]
    rfl
  have h2 : hasNoLineBreak (tabs j ++ closer) = true := by
    rw [hasNoLineBreak_append, hasNoLineBreak_tabs, hc]
    rfl
  rw [ht, linesOf_str_line _ _ h1, linesOf_str_append _ _ hb, linesOf_str_line _ _ h2]
  simp [linesOf]

theorem unparseStmts_lines (ss : List StmtNode) (j : Nat) (h : stmtsNoLineBreak ss = true)
    (hf : stmtsFormalsInParamLists ss = true) :
    ∀ l ∈ linesOf (unparseStmts ss j).data, List.replicate j '\t' <+: l := by
  rw [unparseStmts_indent ss j h hf]
  exact linesOf_indentLines j _

theorem unparseDecls_lines (ds : List DeclNode) (j : Nat) (h : declsNoLineBreak ds = true)
    (hf : declsFormalsInParamLists ds = true) :
    ∀ l ∈ linesOf (unparseDecls ds j).data, List.replicate j '\t' <+: l := by
  rw [unparseDecls_indent ds j h hf]
  exact linesOf_indentLines j _

/-! ## Indentation -/

/-- An example of `indentLines`: two tabs in front of each of three lines. -/
theorem indentLines_example :
    indentLines 2 "if (true) \x7b\n\ta++;\n\x7d\n" = "\t\tif (true) \x7b\n\t\t\ta++;\n\t\t\x7d\n" := by
  decide

/-- C4: when no identifier name and no string literal contains a line break and formal
declarations occur in parameter lists only, the rendering of a statement (a declaration is
the statement `ofDecl d`) at depth `k` is its rendering at depth 0 with `k` tabs inserted
at the start of every line, and every line of it starts with `k` tabs. Hence for each of
the five blocks (one-branch conditional, loop, two-branch conditional, class, function)
rendered at depth `j`: the opening and the closing line are `j` tabs followed by the
opener and the closer, and between them stand the lines of the body rendered at depth
`j + 1`, each starting with `j + 1` tabs; so the lines of a block nested `k = j + 1`
levels deep start with `k` tabs and its opening and closing lines with `k - 1`. -/
theorem C4_unparse_indent :
    (∀ (s : StmtNode) (k : Nat), s.noLineBreak = true → s.formalsInParamLists = true →
      s.unparse k = indentLines k (s.unparse 0)
        ∧ ∀ l ∈ linesOf (s.unparse k).data, List.replicate k '\t' <+: l)
    ∧ (∀ (c : ExpNode) (ss : List StmtNode) (j : Nat),
      (StmtNode.IfStmtNode c ss).noLineBreak = true →
      (StmtNode.IfStmtNode c ss).formalsInParamLists = true →
      IsBlockAt j ((StmtNode.IfStmtNode c ss).unparse j)
        ("if (" ++ c.unparse 0 ++ ") \x7b") (unparseStmts ss (j + 1)) "\x7d")
    ∧ (∀ (c : ExpNode) (ss : List StmtNode) (j : Nat),
      (StmtNode.WhileStmtNode c ss).noLineBreak = true →
      (StmtNode.WhileStmtNode c ss).formalsInParamLists = true →
      IsBlockAt j ((StmtNode.WhileStmtNode c ss).unparse j)
        ("while (" ++ c.unparse 0 ++ ") \x7b") (unparseStmts ss (j + 1)) "\x7d")
    ∧ (∀ (c : ExpNode) (t f : List StmtNode) (j : Nat),
      (StmtNode.IfElseStmtNode c t f).noLineBreak = true →
      (StmtNode.IfElseStmtNode c t f).formalsInParamLists = true →
      linesOf ((StmtNode.IfElseStmtNode c t f).unparse j).data
          = (tabs j ++ ("if (" ++ c.unparse 0 ++ ") \x7b") ++ "\n").data
              :: (linesOf (unparseStmts t (j + 1)).data
                ++ (tabs j ++ "\x7d else \x7b" ++ "\n").data
                  :: (linesOf (unparseStmts f (j + 1)).data
                    ++ [(tabs j ++ "\x7d" ++ "\n").data]))
        ∧ (∀ l ∈ linesOf (unparseStmts t (j + 1)).data, List.replicate (j + 1) '\t' <+: l)
        ∧ (∀ l ∈ linesOf (unparseStmts f (j + 1)).data, List.replicate (j + 1) '\t' <+: l))
    ∧ (∀ (name : IDNode) (ds : List DeclNode) (j : Nat),
      (DeclNode.ClassDeclNode name ds).noLineBreak = true →
      (DeclNode.ClassDeclNode name ds).formalsInParamLists = true →
      IsBlockAt j ((DeclNode.ClassDeclNode name ds).unparse j)
        (name.name ++ " : class \x7b") (unparseDecls ds (j + 1)) "\x7d;")
    ∧ (∀ (type : TypeNode) (id : IDNode) (ps : List FormalDeclNode) (ss : List StmtNode)
        (j : Nat),
      (DeclNode.FnDeclNode type id ps ss).noLineBreak = true →
      (DeclNode.FnDeclNode type id ps ss).formalsInParamLists = true →
      IsBlockAt j ((DeclNode.FnDeclNode type id ps ss).unparse j)
        (id.name ++ " : (" ++ unparseFormals ps true ++ ") " ++ type.unparse 0 ++ " \x7b")
        (unparseStmts ss (j + 1)) "\x7d") := by
  refine ⟨fun s k h hf => ?_, fun c ss j h hf => ?_, fun c ss j h hf => ?_,
    fun c t f j h hf => ?_, fun name ds j h hf => ?_, fun type id ps ss j h hf => ?_⟩
  · have e := stmtNode_unparse_indent s k h hf
    refine ⟨e, ?_⟩
    rw [e]
    exact linesOf_indentLines k _
  · simp only [StmtNode.noLineBreak, Bool.and_eq_true] at h
    simp only [StmtNode.formalsInParamLists] at hf
    refine isBlockAt_intro j _ _ _ _ ?_ (by decide) (unparseStmts_endsLine ss (j + 1) hf)
      (unparseStmts_lines ss (j + 1) h.2 hf) ?_
    · simp +decide [hasNoLineBreak_append, (expNode_unparse_noLineBreak c 0 h.1).1]
    · simp [StmtNode.unparse, doIndent_eq_tabs, String.append_assoc]
  · simp only [StmtNode.noLineBreak, Bool.and_eq_true] at h
    simp only [StmtNode.formalsInParamLists] at hf
    refine isBlockAt_intro j _ _ _ _ ?_ (by decide) (unparseStmts_endsLine ss (j + 1) hf)
      (unparseStmts_lines ss (j + 1) h.2 hf) ?_
    · simp +decide [hasNoLineBreak_append, (expNode_unparse_noLineBreak c 0 h.1).1]
    · simp [StmtNode.unparse, doIndent_eq_tabs, String.append_assoc]
  · simp only [StmtNode.noLineBreak, Bool.and_eq_true] at h
    simp only [StmtNode.formalsInParamLists, Bool.and_eq_true] at hf
    have hc : hasNoLineBreak (tabs j ++ ("if (" ++ c.unparse 0 ++ ") \x7b")) = true := by
      simp +decide [hasNoLineBreak_append, hasNoLineBreak_tabs,
        (expNode_unparse_noLineBreak c 0 h.1.1).1]
    have hm : hasNoLineBreak (tabs j ++ "\x7d else \x7b") = true := by
      simp +decide [hasNoLineBreak_append, hasNoLineBreak_tabs]
    have hz : hasNoLineBreak (tabs j ++ "\x7d") = true := by
      simp +decide [hasNoLineBreak_append, hasNoLineBreak_tabs]
    have e : (StmtNode.IfElseStmtNode c t f).unparse j
        = (tabs j ++ ("if (" ++ c.unparse 0 ++ ") \x7b")) ++ "\n" ++ (unparseStmts t (j + 1)
            ++ ((tabs j ++ "\x7d else \x7b") ++ "\n" ++ (unparseStmts f (j + 1)
              ++ ((tabs j ++ "\x7d") ++ "\n" ++ "")))) := by
      simp [StmtNode.unparse, doIndent_eq_tabs, String.append_assoc]
    refine ⟨?_, unparseStmts_lines t (j + 1) h.1.2 hf.1,
      unparseStmts_lines f (j + 1) h.2 hf.2⟩
    rw [e, linesOf_str_line _ _ hc,
      linesOf_str_append _ _ (unparseStmts_endsLine t (j + 1) hf.1),
      linesOf_str_line _ _ hm,
      linesOf_str_append _ _ (unparseStmts_endsLine f (j + 1) hf.2),
      linesOf_str_line _ _ hz]
    simp [linesOf, String.append_assoc]
  · simp only [DeclNode.noLineBreak, Bool.and_eq_true] at h
    simp only [DeclNode.formalsInParamLists] at hf
    refine isBlockAt_intro j _ _ _ _ ?_ (by decide) (unparseDecls_endsLine ds (j + 1) hf)
      (unparseDecls_lines ds (j + 1) h.2 hf) ?_
    · have hn : hasNoLineBreak name.name = true := h.1
      simp +decide [hasNoLineBreak_append, hn]
    · simp [DeclNode.unparse, doIndent_eq_tabs, IDNode.unparse, String.append_assoc]
  · simp only [DeclNode.noLineBreak, Bool.and_eq_true] at h
    simp only [DeclNode.formalsInParamLists] at hf
    refine isBlockAt_intro j _ _ _ _ ?_ (by decide) (unparseStmts_endsLine ss (j + 1) hf)
      (unparseStmts_lines ss (j + 1) h.2 hf) ?_
    · have hn : hasNoLineBreak id.name = true := h.1.1.2
      simp +decide [hasNoLineBreak_append, hn, typeNode_unparse_noLineBreak type 0 h.1.1.1,
        unparseFormals_noLineBreak ps true h.1.2]
    · simp [DeclNode.unparse, doIndent_eq_tabs, IDNode.unparse, String.append_assoc]

/-- C4 at depth 2 for `exampleIf`: the conditional's opening and closing lines have two
tabs, the lines of its body three, and the lines of the function body inside it four. -/
theorem C4_unparse_indent_witness :
    exampleIf.noLineBreak = true
    ∧ exampleIf.formalsInParamLists = true
    ∧ (exampleIf.unparse 2 = indentLines 2 (exampleIf.unparse 0)
      ∧ ∀ l ∈ linesOf (exampleIf.unparse 2).data, List.replicate 2 '\t' <+: l)
    ∧ IsBlockAt 2 (exampleIf.unparse 2) ("if (" ++ ExpNode.TrueNode.unparse 0 ++ ") \x7b")
        (unparseStmts
          [.PostIncStmtNode (.ofID ⟨"a"⟩),
           .ofDecl (.FnDeclNode .IntTypeNode ⟨"f"⟩ [⟨⟨"p"⟩, .BoolTypeNode⟩]
              [.ReturnStmtNode (.IntLitNode 1)])] 3) "\x7d"
    ∧ linesOf (exampleIf.unparse 2).data
        = ["\t\tif (true) \x7b\n".data, "\t\t\ta++;\n".data,
           "\t\t\tf : (p : bool) int \x7b\n".data, "\t\t\t\treturn 1;\n".data,
           "\t\t\t\x7d\n".data, "\t\t\x7d\n".data] := by
  have hr : exampleIf.unparse 2
      = "\t\tif (true) \x7b\n\t\t\ta++;\n\t\t\tf : (p : bool) int \x7b\n\t\t\t\treturn 1;\n\t\t\t\x7d\n\t\t\x7d\n" := by
    simp [exampleIf, StmtNode.unparse, DeclNode.unparse, unparseStmts, unparseFormals,
      FormalDeclNode.unparse, ExpNode.unparse, LocNode.unparse, IDNode.unparse,
      TypeNode.unparse, doIndent]
    decide
  refine ⟨by decide, by decide, C4_unparse_indent.1 exampleIf 2 (by decide) (by decide),
    C4_unparse_indent.2.1 _ _ 2 (by decide) (by decide), ?_⟩
  rw [hr]
  decide

/-! ## Simple statements -/

/-- C11: post-increment renders as `k` tabs, the location, `++;` and a line break, and
post-decrement as `k` tabs, the location, `--;` and a line break, with nothing between
the location and the operator; the post-increment of `a--b` at depth 0 is `a--b++;` and a
line break. -/
theorem C11_postIncDec_unparse :
    (∀ (l : LocNode) (k : Nat),
      (StmtNode.PostIncStmtNode l).unparse k = tabs k ++ l.unparse 0 ++ "++;\n")
    ∧ (∀ (l : LocNode) (k : Nat),
      (StmtNode.PostDecStmtNode l).unparse k = tabs k ++ l.unparse 0 ++ "--;\n")
    ∧ (StmtNode.PostIncStmtNode (.MemberFieldExpNode (.ofID ⟨"a"⟩) ⟨"b"⟩)).unparse 0
        = "a--b++;\n"
    ∧ (StmtNode.PostDecStmtNode (.MemberFieldExpNode (.ofID ⟨"a"⟩) ⟨"b"⟩)).unparse 0
        = "a--b--;\n" := by
  refine ⟨fun l k => ?_, fun l k => ?_, ?_, ?_⟩
  · simp [StmtNode.unparse, doIndent_eq_tabs]
  · simp [StmtNode.unparse, doIndent_eq_tabs]
  · simp [StmtNode.unparse, doIndent, LocNode.unparse, IDNode.unparse]
  · simp [StmtNode.unparse, doIndent, LocNode.unparse, IDNode.unparse]

/-- C12: a member-field access renders as its base, `--` and the field's name, with
nothing added around the base, both as a location and as an expression; the chain
`Member(Member(a, b), c)` renders as `a--b--c`. -/
theorem C12_memberField_unparse :
    (∀ (b : LocNode) (f : IDNode) (k : Nat),
      (LocNode.MemberFieldExpNode b f).unparse k = b.unparse 0 ++ "--" ++ f.name)
    ∧ (∀ (b : LocNode) (f : IDNode) (k : Nat),
      (ExpNode.ofLoc (.MemberFieldExpNode b f)).unparse k = b.unparse 0 ++ "--" ++ f.name)
    ∧ (LocNode.MemberFieldExpNode (.MemberFieldExpNode (.ofID ⟨"a"⟩) ⟨"b"⟩) ⟨"c"⟩).unparse 0
        = "a--b--c" := by
  refine ⟨fun b f k => ?_, fun b f k => ?_, ?_⟩
  · simp [LocNode.unparse, IDNode.unparse]
  · simp [ExpNode.unparse, LocNode.unparse, IDNode.unparse]
  · simp [LocNode.unparse, IDNode.unparse]

/-- C13: negate renders as `-` and logical-not as `!`, each directly followed by the
operand-position rendering of the operand, and nothing around the whole. -/
theorem C13_unary_unparse :
    (∀ (e : ExpNode) (k : Nat), (ExpNode.NegNode e).unparse k = "-" ++ e.nestedUnparse 0)
    ∧ (∀ (e : ExpNode) (k : Nat), (ExpNode.NotNode e).unparse k = "!" ++ e.nestedUnparse 0)
    ∧ (ExpNode.NegNode (.NotNode .TrueNode)).unparse 0 = "-(!true)" := by
  refine ⟨fun e k => ?_, fun e k => ?_, ?_⟩
  · simp [ExpNode.unparse]
  · simp [ExpNode.unparse]
  · simp [ExpNode.unparse, ExpNode.nestedUnparse]

/-- C14: each simple statement renders as `k` tabs, its body, `;` and a line break; the
body is `dest = e`, the call, `give e`, `return e`, `take loc` or the abort phrase, with
every expression in its top-level rendering. -/
theorem C14_simple_stmt_unparse :
    (∀ (dest : LocNode) (e : ExpNode) (k : Nat),
      (StmtNode.AssignStmtNode dest e).unparse k
        = tabs k ++ (dest.unparse 0 ++ " = " ++ e.unparse 0) ++ ";" ++ "\n")
    ∧ (∀ (f : LocNode) (args : List ExpNode) (k : Nat),
      (StmtNode.CallStmtNode f args).unparse k
        = tabs k ++ (ExpNode.CallExpNode f args).unparse 0 ++ ";" ++ "\n")
    ∧ (∀ (e : ExpNode) (k : Nat),
      (StmtNode.GiveStmtNode e).unparse k = tabs k ++ ("give " ++ e.unparse 0) ++ ";" ++ "\n")
    ∧ (∀ (e : ExpNode) (k : Nat),
      (StmtNode.ReturnStmtNode e).unparse k
        = tabs k ++ ("return " ++ e.unparse 0) ++ ";" ++ "\n")
    ∧ (∀ (l : LocNode) (k : Nat),
      (StmtNode.TakeStmtNode l).unparse k = tabs k ++ ("take " ++ l.unparse 0) ++ ";" ++ "\n")
    ∧ (∀ k : Nat,
      StmtNode.ExitStmtNode.unparse k
        = tabs k ++ "today I don't feel like doing any work" ++ ";" ++ "\n")
    ∧ (StmtNode.ReturnStmtNode (.PlusNode (.IntLitNode 1) (.NegNode (.IntLitNode 2)))).unparse 1
        = "\treturn 1 + (-2);\n" := by
  refine ⟨fun dest e k => ?_, fun f args k => ?_, fun e k => ?_, fun e k => ?_,
    fun l k => ?_, fun k => ?_, ?_⟩
  · simp [StmtNode.unparse, doIndent_eq_tabs, String.append_assoc]
  · simp [StmtNode.unparse, doIndent_eq_tabs, String.append_assoc]
  · simp [StmtNode.unparse, doIndent_eq_tabs, String.append_assoc]
  · simp [StmtNode.unparse, doIndent_eq_tabs, String.append_assoc]
  · simp [StmtNode.unparse, doIndent_eq_tabs, String.append_assoc]
  · simp [StmtNode.unparse, doIndent_eq_tabs, String.append_assoc]
  · simp [StmtNode.unparse, doIndent, ExpNode.unparse, ExpNode.nestedUnparse]
    decide

/-! ## One-branch conditionals and loops -/

/-- C15: a one-branch conditional and a while loop render as `k` tabs, the keyword, ` (`,
the condition in its top-level rendering, `) {` and a line break, the body statements at
depth `k + 1` in order, then `k` tabs, `}` and a line break; an empty body leaves the two
brace lines. -/
theorem C15_if_while_unparse :
    (∀ (c : ExpNode) (ss : List StmtNode) (k : Nat),
      (StmtNode.IfStmtNode c ss).unparse k
        = tabs k ++ "if" ++ " (" ++ c.unparse 0 ++ ") \x7b" ++ "\n"
            ++ concatAll (ss.map (fun s => s.unparse (k + 1)))
            ++ tabs k ++ "\x7d" ++ "\n")
    ∧ (∀ (c : ExpNode) (ss : List StmtNode) (k : Nat),
      (StmtNode.WhileStmtNode c ss).unparse k
        = tabs k ++ "while" ++ " (" ++ c.unparse 0 ++ ") \x7b" ++ "\n"
            ++ concatAll (ss.map (fun s => s.unparse (k + 1)))
            ++ tabs k ++ "\x7d" ++ "\n")
    ∧ (∀ (c : ExpNode) (k : Nat),
      (StmtNode.IfStmtNode c []).unparse k
        = tabs k ++ "if (" ++ c.unparse 0 ++ ") \x7b\n" ++ tabs k ++ "\x7d\n")
    ∧ (∀ (c : ExpNode) (k : Nat),
      (StmtNode.WhileStmtNode c []).unparse k
        = tabs k ++ "while (" ++ c.unparse 0 ++ ") \x7b\n" ++ tabs k ++ "\x7d\n")
    ∧ (StmtNode.WhileStmtNode .TrueNode [.IfStmtNode .FalseNode [.ExitStmtNode]]).unparse 1
        = "\twhile (true) \x7b\n\t\tif (false) \x7b\n"
            ++ "\t\t\ttoday I don't feel like doing any work;\n\t\t\x7d\n\t\x7d\n" := by
  refine ⟨fun c ss k => ?_, fun c ss k => ?_, fun c k => ?_, fun c k => ?_, ?_⟩
  · simp [StmtNode.unparse, doIndent_eq_tabs, unparseStmts_eq_concatAll, String.append_assoc]
  · simp [StmtNode.unparse, doIndent_eq_tabs, unparseStmts_eq_concatAll, String.append_assoc]
  · simp [StmtNode.unparse, doIndent_eq_tabs, unparseStmts, String.append_assoc]
  · simp [StmtNode.unparse, doIndent_eq_tabs, unparseStmts, String.append_assoc]
  · simp [StmtNode.unparse, doIndent, unparseStmts, ExpNode.unparse]

/-! ## Types -/

/-- C16: `int`, `bool` and `void` render as these words, a class-reference type as the
name of its identifier, a qualifier type as `perfect`, a space and the wrapped type; `n`
nested qualifiers render as `n` prefixes `perfect `. -/
theorem C16_type_unparse :
    (∀ k : Nat, TypeNode.IntTypeNode.unparse k = "int")
    ∧ (∀ k : Nat, TypeNode.BoolTypeNode.unparse k = "bool")
    ∧ (∀ k : Nat, TypeNode.VoidTypeNode.unparse k = "void")
    ∧ (∀ (id : IDNode) (k : Nat), (TypeNode.ClassTypeNode id).unparse k = id.name)
    ∧ (∀ (t : TypeNode) (k : Nat),
      (TypeNode.PerfectTypeNode t).unparse k = "perfect" ++ " " ++ t.unparse k)
    ∧ (∀ (n : Nat) (t : TypeNode) (k : Nat),
      (Nat.iterate TypeNode.PerfectTypeNode n t).unparse k
        = concatAll (List.replicate n "perfect ") ++ t.unparse k)
    ∧ (TypeNode.PerfectTypeNode (.PerfectTypeNode (.ClassTypeNode ⟨"C"⟩))).unparse 0
        = "perfect perfect C" := by
  refine ⟨fun k => rfl, fun k => rfl, fun k => rfl, fun id k => rfl, fun t k => ?_,
    fun n t k => ?_, ?_⟩
  · simp [TypeNode.unparse]
  · induction n with
    | zero => simp [concatAll]
    | succ n ih =>
      rw [Function.iterate_succ_apply', TypeNode.unparse, ih, List.replicate_succ,
        concatAll_cons, String.append_assoc]
  · decide

/-! ## Where the rendering methods call -/

theorem strictSubtree_of_mem_children (a b : Node) (h : a ∈ b.children) :
    StrictSubtree a b :=
  Relation.TransGen.single h

theorem not_strictSubtree_of_children_nil (a b : Node) (h : b.children = []) :
    ¬ StrictSubtree a b := by
  intro hs
  cases hs with
  | single hm => simp [h] at hm
  | tail _ hm => simp [h] at hm

theorem locNode_calls_children (l : LocNode) (c : Method × Node)
    (h : c ∈ l.unparseCalls) : c.2 ∈ l.children := by
  cases l with
  | ofID id => simp [LocNode.unparseCalls] at h
  | MemberFieldExpNode loc name =>
    simp only [LocNode.unparseCalls, List.mem_cons, List.mem_singleton, List.not_mem_nil,
      or_false] at h
    rcases h with rfl | rfl <;> simp [LocNode.children]

theorem expNode_calls_children (e : ExpNode) (c : Method × Node)
    (h : c ∈ e.unparseCalls) : c.2 ∈ e.children := by
  cases e with
  | CallExpNode f args =>
    simp only [ExpNode.unparseCalls, List.mem_cons, List.mem_map] at h
    rcases h with rfl | ⟨a, ha, rfl⟩
    · simp [ExpNode.children]
    · simp [ExpNode.children, ha]
  | ofLoc l => exact locNode_calls_children l c h
  | FalseNode | TrueNode | MagicNode | IntLitNode _ | StrLitNode _ =>
    simp [ExpNode.unparseCalls] at h
  | NegNode e | NotNode e =>
    simp only [ExpNode.unparseCalls, List.mem_singleton] at h
    subst h
    simp [ExpNode.children]
  | AndNode l r | DivideNode l r | EqualsNode l r | GreaterEqNode l r | GreaterNode l r
  | LessNode l r | LessEqNode l r | MinusNode l r | NotEqualsNode l r | OrNode l r
  | PlusNode l r | TimesNode l r =>
    simp only [ExpNode.unparseCalls, List.mem_cons, List.mem_singleton, List.not_mem_nil,
      or_false] at h
    rcases h with rfl | rfl <;> simp [ExpNode.children]

theorem typeNode_calls_children (t : TypeNode) (c : Method × Node)
    (h : c ∈ t.unparseCalls) : c.2 ∈ t.children := by
  cases t with
  | ClassTypeNode id =>
    simp only [TypeNode.unparseCalls, List.mem_singleton] at h
    subst h
    simp [TypeNode.children]
  | PerfectTypeNode type =>
    simp only [TypeNode.unparseCalls, List.mem_singleton] at h
    subst h
    simp [TypeNode.children]
  | IntTypeNode | BoolTypeNode | VoidTypeNode => simp [TypeNode.unparseCalls] at h

theorem formalDeclNode_calls_children (f : FormalDeclNode) (c : Method × Node)
    (h : c ∈ f.unparseCalls) : c.2 ∈ f.children := by
  simp only [FormalDeclNode.unparseCalls, List.mem_cons, List.mem_singleton,
    List.not_mem_nil, or_false] at h
  rcases h with rfl | rfl <;> simp [FormalDeclNode.children]

theorem declNode_calls_children (d : DeclNode) (c : Method × Node)
    (h : c ∈ d.unparseCalls) : c.2 ∈ d.children := by
  cases d with
  | ClassDeclNode name ds =>
    simp only [DeclNode.unparseCalls, List.mem_cons, List.mem_map] at h
    rcases h with rfl | ⟨a, ha, rfl⟩
    · simp [DeclNode.children]
    · simp [DeclNode.children, ha]
  | VarDeclNode myID myType myExp =>
    cases myExp with
    | none =>
      simp only [DeclNode.unparseCalls, List.mem_cons, List.mem_singleton, List.not_mem_nil,
        or_false] at h
      rcases h with rfl | rfl <;> simp [DeclNode.children]
    | some exp =>
      simp only [DeclNode.unparseCalls, List.mem_cons, List.mem_singleton, List.not_mem_nil,
        or_false] at h
      rcases h with rfl | rfl | rfl <;> simp [DeclNode.children]
  | ofFormal f => exact formalDeclNode_calls_children f c h
  | FnDeclNode type id ps ss =>
    simp only [DeclNode.unparseCalls, List.mem_cons, List.mem_append, List.mem_map] at h
    rcases h with rfl | ⟨a, ha, rfl⟩ | rfl | ⟨a, ha, rfl⟩
    · simp [DeclNode.children]
    · simp [DeclNode.children, ha]
    · simp [DeclNode.children]
    · simp [DeclNode.children, ha]

theorem stmtNode_calls_children (s : StmtNode) (c : Method × Node)
    (h : c ∈ s.unparseCalls) : c.2 ∈ s.children := by
  cases s with
  | AssignStmtNode dest exp =>
    simp only [StmtNode.unparseCalls, List.mem_cons, List.mem_singleton, List.not_mem_nil,
      or_false] at h
    rcases h with rfl | rfl <;> simp [StmtNode.children]
  | CallStmtNode f args =>
    simp only [StmtNode.unparseCalls, List.mem_singleton] at h
    subst h
    simp [StmtNode.children]
  | ExitStmtNode => simp [StmtNode.unparseCalls] at h
  | GiveStmtNode e | ReturnStmtNode e =>
    simp only [StmtNode.unparseCalls, List.mem_singleton] at h
    subst h
    simp [StmtNode.children]
  | IfElseStmtNode cnd t f =>
    simp only [StmtNode.unparseCalls, List.mem_cons, List.mem_append, List.mem_map] at h
    rcases h with rfl | ⟨a, ha, rfl⟩ | ⟨a, ha, rfl⟩
    · simp [StmtNode.children]
    · simp [StmtNode.children, ha]
    · simp [StmtNode.children, ha]
  | IfStmtNode cnd ss | WhileStmtNode cnd ss =>
    simp only [StmtNode.unparseCalls, List.mem_cons, List.mem_map] at h
    rcases h with rfl | ⟨a, ha, rfl⟩
    · simp [StmtNode.children]
    · simp [StmtNode.children, ha]
  | PostDecStmtNode l | PostIncStmtNode l | TakeStmtNode l =>
    simp only [StmtNode.unparseCalls, List.mem_singleton] at h
    subst h
    simp [StmtNode.children]
  | ofDecl d => exact declNode_calls_children d c h

theorem unparse_calls_children (n : Node) (c : Method × Node)
    (h : c ∈ Node.calls .unparse n) : c.2 ∈ n.children := by
  cases n with
  | program p =>
    simp only [Node.calls, List.mem_map] at h
    obtain ⟨d, hd, rfl⟩ := h
    simpa [Node.children] using hd
  | decl d => exact declNode_calls_children d c h
  | formal f => exact formalDeclNode_calls_children f c h
  | stmt s => exact stmtNode_calls_children s c h
  | exp e => exact expNode_calls_children e c h
  | loc l => exact locNode_calls_children l c h
  | id n => simp [Node.calls] at h
  | type t => exact typeNode_calls_children t c h

theorem nestedUnparse_calls_self (n : Node) (c : Method × Node)
    (h : c ∈ Node.calls .nestedUnparse n) : c = (.unparse, n) := by
  cases n <;> simp [Node.calls] at h <;> exact h

/-! ## The rendering completes within a bounded depth of calls -/

theorem commaLoopFuel_args (call : ExpNode → Option String) (args : List ExpNode)
    (first : Bool) (h : ∀ a ∈ args, call a = some (a.unparse 0)) :
    commaLoopFuel call args first = some (unparseArgs args first) := by
  induction args generalizing first with
  | nil => simp [commaLoopFuel, unparseArgs]
  | cons a rest ih =>
    have hr := ih false (fun x hx => h x (List.mem_cons_of_mem _ hx))
    simp [commaLoopFuel, unparseArgs, h a (List.mem_cons_self _ _), hr, String.append_assoc]

theorem commaLoopFuel_formals (call : FormalDeclNode → Option String)
    (decls : List FormalDeclNode) (first : Bool)
    (h : ∀ d ∈ decls, call d = some (d.unparse 0)) :
    commaLoopFuel call decls first = some (unparseFormals decls first) := by
  induction decls generalizing first with
  | nil => simp [commaLoopFuel, unparseFormals]
  | cons d rest ih =>
    have hr := ih false (fun x hx => h x (List.mem_cons_of_mem _ hx))
    simp [commaLoopFuel, unparseFormals, h d (List.mem_cons_self _ _), hr,
      String.append_assoc]

theorem loopFuel_stmts (call : StmtNode → Option String) (ss : List StmtNode) (k : Nat)
    (h : ∀ s ∈ ss, call s = some (s.unparse k)) :
    loopFuel call ss = some (unparseStmts ss k) := by
  induction ss with
  | nil => simp [loopFuel, unparseStmts]
  | cons s rest ih =>
    have hr := ih (fun x hx => h x (List.mem_cons_of_mem _ hx))
    simp [loopFuel, unparseStmts, h s (List.mem_cons_self _ _), hr]

theorem loopFuel_decls (call : DeclNode → Option String) (ds : List DeclNode) (k : Nat)
    (h : ∀ d ∈ ds, call d = some (d.unparse k)) :
    loopFuel call ds = some (unparseDecls ds k) := by
  induction ds with
  | nil => simp [loopFuel, unparseDecls]
  | cons d rest ih =>
    have hr := ih (fun x hx => h x (List.mem_cons_of_mem _ hx))
    simp [loopFuel, unparseDecls, h d (List.mem_cons_self _ _), hr]

theorem idNode_unparseFuel_eq (n : IDNode) (fuel k : Nat) :
    n.unparseFuel (fuel + 1) k = some (n.unparse k) := rfl

theorem idNode_nestedUnparseFuel_eq (n : IDNode) (fuel k : Nat) :
    n.nestedUnparseFuel (fuel + 2) k = some (n.nestedUnparse k) := rfl

theorem locNode_unparseFuel_total (l : LocNode) :
    ∃ n, ∀ fuel, n ≤ fuel → ∀ k, l.unparseFuel fuel k = some (l.unparse k) := by
  induction l with
  | ofID id =>
    refine ⟨2, fun fuel hf k => ?_⟩
    obtain ⟨f, rfl⟩ : ∃ f, fuel = f + 2 := ⟨fuel - 2, by omega⟩
    simp [LocNode.unparseFuel, LocNode.unparse, idNode_unparseFuel_eq]
  | MemberFieldExpNode loc name ih =>
    obtain ⟨n, hn⟩ := ih
    refine ⟨n + 2, fun fuel hf k => ?_⟩
    obtain ⟨f, rfl⟩ : ∃ f, fuel = f + 2 := ⟨fuel - 2, by omega⟩
    simp [LocNode.unparseFuel, LocNode.unparse, idNode_unparseFuel_eq,
      hn (f + 1) (by omega) 0]

theorem locNode_nestedUnparseFuel_total (l : LocNode) :
    ∃ n, ∀ fuel, n ≤ fuel → ∀ k, l.nestedUnparseFuel fuel k = some (l.nestedUnparse k) := by
  obtain ⟨n, hn⟩ := locNode_unparseFuel_total l
  refine ⟨n + 3, fun fuel hf k => ?_⟩
  obtain ⟨f, rfl⟩ : ∃ f, fuel = f + 3 := ⟨fuel - 3, by omega⟩
  cases l with
  | ofID id => simp [LocNode.nestedUnparseFuel, LocNode.nestedUnparse, idNode_nestedUnparseFuel_eq]
  | MemberFieldExpNode loc name =>
    simp [LocNode.nestedUnparseFuel, LocNode.nestedUnparse, hn (f + 2) (by omega) 0]

theorem typeNode_unparseFuel_total (t : TypeNode) :
    ∃ n, ∀ fuel, n ≤ fuel → ∀ k, t.unparseFuel fuel k = some (t.unparse k) := by
  induction t with
  | IntTypeNode | BoolTypeNode | VoidTypeNode =>
    refine ⟨1, fun fuel hf k => ?_⟩
    obtain ⟨f, rfl⟩ : ∃ f, fuel = f + 1 := ⟨fuel - 1, by omega⟩
    simp [TypeNode.unparseFuel, TypeNode.unparse]
  | ClassTypeNode id =>
    refine ⟨2, fun fuel hf k => ?_⟩
    obtain ⟨f, rfl⟩ : ∃ f, fuel = f + 2 := ⟨fuel - 2, by omega⟩
    simp [TypeNode.unparseFuel, TypeNode.unparse, idNode_unparseFuel_eq]
  | PerfectTypeNode type ih =>
    obtain ⟨n, hn⟩ := ih
    refine ⟨n + 1, fun fuel hf k => ?_⟩
    obtain ⟨f, rfl⟩ : ∃ f, fuel = f + 1 := ⟨fuel - 1, by omega⟩
    simp [TypeNode.unparseFuel, TypeNode.unparse, hn f (by omega) k]

theorem formalDeclNode_unparseFuel_total (d : FormalDeclNode) :
    ∃ n, ∀ fuel, n ≤ fuel → ∀ k, d.unparseFuel fuel k = some (d.unparse k) := by
  obtain ⟨n, hn⟩ := typeNode_unparseFuel_total d.myType
  refine ⟨n + 2, fun fuel hf k => ?_⟩
  obtain ⟨f, rfl⟩ : ∃ f, fuel = f + 2 := ⟨fuel - 2, by omega⟩
  simp [FormalDeclNode.unparseFuel, FormalDeclNode.unparse, idNode_unparseFuel_eq,
    hn (f + 1) (by omega) 0, String.append_assoc]

theorem formals_unparseFuel_total (ds : List FormalDeclNode) :
    ∃ n, ∀ fuel, n ≤ fuel → ∀ d ∈ ds, ∀ k, d.unparseFuel fuel k = some (d.unparse k) := by
  induction ds with
  | nil => exact ⟨0, by simp⟩
  | cons d rest ih =>
    obtain ⟨n, hn⟩ := ih
    obtain ⟨m, hm⟩ := formalDeclNode_unparseFuel_total d
    refine ⟨n + m, fun fuel hf x hx k => ?_⟩
    rcases List.mem_cons.1 hx with rfl | hx
    · exact hm fuel (by omega) k
    · exact hn fuel (by omega) x hx k

mutual
theorem expNode_unparseFuel_total : ∀ e : ExpNode, ∃ n, ∀ fuel, n ≤ fuel → ∀ k,
    e.unparseFuel fuel k = some (e.unparse k)
      ∧ e.nestedUnparseFuel (fuel + 1) k = some (e.nestedUnparse k)
  | .CallExpNode f args => by
    obtain ⟨n, hn⟩ := locNode_unparseFuel_total f
    obtain ⟨m, hm⟩ := args_unparseFuel_total args
    refine ⟨n + m + 1, fun fuel hf k => ?_⟩
    obtain ⟨g, rfl⟩ : ∃ g, fuel = g + 1 := ⟨fuel - 1, by omega⟩
    have ha := commaLoopFuel_args (fun arg => ExpNode.unparseFuel g arg 0) args true
      (fun a h => hm g (by omega) a h 0)
    constructor
    · simp only [ExpNode.unparseFuel]
      simp [ExpNode.unparse, hn g (by omega) 0, ha]
    · simp only [ExpNode.nestedUnparseFuel]
      simp only [ExpNode.unparseFuel]
      simp [ExpNode.unparse, ExpNode.nestedUnparse, hn g (by omega) 0, ha]
  | .FalseNode | .TrueNode | .MagicNode | .IntLitNode _ | .StrLitNode _ => by
    refine ⟨1, fun fuel hf k => ?_⟩
    obtain ⟨g, rfl⟩ : ∃ g, fuel = g + 1 := ⟨fuel - 1, by omega⟩
    constructor
    · simp only [ExpNode.unparseFuel]
      simp [ExpNode.unparse]
    · simp only [ExpNode.nestedUnparseFuel]
      simp only [ExpNode.unparseFuel]
      simp [ExpNode.unparse, ExpNode.nestedUnparse]
  | .ofLoc l => by
    obtain ⟨n, hn⟩ := locNode_unparseFuel_total l
    obtain ⟨m, hm⟩ := locNode_nestedUnparseFuel_total l
    refine ⟨n + m + 1, fun fuel hf k => ?_⟩
    obtain ⟨g, rfl⟩ : ∃ g, fuel = g + 1 := ⟨fuel - 1, by omega⟩
    constructor
    · simp only [ExpNode.unparseFuel]
      simp [ExpNode.unparse, hn g (by omega) k]
    · simp only [ExpNode.nestedUnparseFuel]
      simp [ExpNode.nestedUnparse, hm (g + 1) (by omega) k]
  | .NegNode e | .NotNode e => by
    obtain ⟨n, hn⟩ := expNode_unparseFuel_total e
    refine ⟨n + 2, fun fuel hf k => ?_⟩
    obtain ⟨g, rfl⟩ : ∃ g, fuel = g + 2 := ⟨fuel - 2, by omega⟩
    constructor
    · simp only [ExpNode.unparseFuel]
      simp [ExpNode.unparse, (hn g (by omega) 0).2]
    · simp only [ExpNode.nestedUnparseFuel]
      simp only [ExpNode.unparseFuel]
      simp [ExpNode.unparse, ExpNode.nestedUnparse, (hn g (by omega) 0).2]
  | .AndNode l r | .DivideNode l r | .EqualsNode l r | .GreaterEqNode l r
  | .GreaterNode l r | .LessNode l r | .LessEqNode l r | .MinusNode l r
  | .NotEqualsNode l r | .OrNode l r | .PlusNode l r | .TimesNode l r => by
    obtain ⟨n, hn⟩ := expNode_unparseFuel_total l
    obtain ⟨m, hm⟩ := expNode_unparseFuel_total r
    refine ⟨n + m + 2, fun fuel hf k => ?_⟩
    obtain ⟨g, rfl⟩ : ∃ g, fuel = g + 2 := ⟨fuel - 2, by omega⟩
    constructor
    · simp only [ExpNode.unparseFuel]
      simp [ExpNode.unparse, (hn g (by omega) 0).2, (hm g (by omega) 0).2]
    · simp only [ExpNode.nestedUnparseFuel]
      simp only [ExpNode.unparseFuel]
      simp [ExpNode.unparse, ExpNode.nestedUnparse, (hn g (by omega) 0).2,
        (hm g (by omega) 0).2]
theorem args_unparseFuel_total : ∀ args : List ExpNode, ∃ n, ∀ fuel, n ≤ fuel →
    ∀ a ∈ args, ∀ k, a.unparseFuel fuel k = some (a.unparse k)
  | [] => ⟨0, by simp⟩
  | a :: rest => by
    obtain ⟨n, hn⟩ := args_unparseFuel_total rest
    obtain ⟨m, hm⟩ := expNode_unparseFuel_total a
    refine ⟨n + m, fun fuel hf x hx k => ?_⟩
    rcases List.mem_cons.1 hx with rfl | hx
    · exact (hm fuel (by omega) k).1
    · exact hn fuel (by omega) x hx k
end

mutual
theorem stmtNode_unparseFuel_total : ∀ s : StmtNode, ∃ n, ∀ fuel, n ≤ fuel → ∀ k,
    s.unparseFuel fuel k = some (s.unparse k)
  | .AssignStmtNode dest exp => by
    obtain ⟨n, hn⟩ := locNode_unparseFuel_total dest
    obtain ⟨m, hm⟩ := expNode_unparseFuel_total exp
    refine ⟨n + m + 1, fun fuel hf k => ?_⟩
    obtain ⟨g, rfl⟩ : ∃ g, fuel = g + 1 := ⟨fuel - 1, by omega⟩
    simp only [StmtNode.unparseFuel]
    simp [StmtNode.unparse, hn g (by omega) 0, (hm g (by omega) 0).1]
  | .CallStmtNode f args => by
    obtain ⟨m, hm⟩ := expNode_unparseFuel_total (.CallExpNode f args)
    refine ⟨m + 1, fun fuel hf k => ?_⟩
    obtain ⟨g, rfl⟩ : ∃ g, fuel = g + 1 := ⟨fuel - 1, by omega⟩
    simp only [StmtNode.unparseFuel]
    simp [StmtNode.unparse, (hm g (by omega) 0).1]
  | .ExitStmtNode => by
    refine ⟨1, fun fuel hf k => ?_⟩
    obtain ⟨g, rfl⟩ : ∃ g, fuel = g + 1 := ⟨fuel - 1, by omega⟩
    simp only [StmtNode.unparseFuel]
    simp [StmtNode.unparse]
  | .GiveStmtNode exp | .ReturnStmtNode exp => by
    obtain ⟨m, hm⟩ := expNode_unparseFuel_total exp
    refine ⟨m + 1, fun fuel hf k => ?_⟩
    obtain ⟨g, rfl⟩ : ∃ g, fuel = g + 1 := ⟨fuel - 1, by omega⟩
    simp only [StmtNode.unparseFuel]
    simp [StmtNode.unparse, (hm g (by omega) 0).1]
  | .IfElseStmtNode c t f => by
    obtain ⟨n, hn⟩ := expNode_unparseFuel_total c
    obtain ⟨m, hm⟩ := stmts_unparseFuel_total t
    obtain ⟨p, hp⟩ := stmts_unparseFuel_total f
    refine ⟨n + m + p + 1, fun fuel hf k => ?_⟩
    obtain ⟨g, rfl⟩ : ∃ g, fuel = g + 1 := ⟨fuel - 1, by omega⟩
    have ht := loopFuel_stmts (fun stmt => StmtNode.unparseFuel g stmt (k + 1)) t (k + 1)
      (fun s h => hm g (by omega) s h (k + 1))
    have hf' := loopFuel_stmts (fun stmt => StmtNode.unparseFuel g stmt (k + 1)) f (k + 1)
      (fun s h => hp g (by omega) s h (k + 1))
    simp only [StmtNode.unparseFuel]
    simp [StmtNode.unparse, (hn g (by omega) 0).1, ht, hf']
  | .IfStmtNode c ss | .WhileStmtNode c ss => by
    obtain ⟨n, hn⟩ := expNode_unparseFuel_total c
    obtain ⟨m, hm⟩ := stmts_unparseFuel_total ss
    refine ⟨n + m + 1, fun fuel hf k => ?_⟩
    obtain ⟨g, rfl⟩ : ∃ g, fuel = g + 1 := ⟨fuel - 1, by omega⟩
    have hb := loopFuel_stmts (fun stmt => StmtNode.unparseFuel g stmt (k + 1)) ss (k + 1)
      (fun s h => hm g (by omega) s h (k + 1))
    simp only [StmtNode.unparseFuel]
    simp [StmtNode.unparse, (hn g (by omega) 0).1, hb]
  | .PostDecStmtNode loc | .PostIncStmtNode loc | .TakeStmtNode loc => by
    obtain ⟨n, hn⟩ := locNode_unparseFuel_total loc
    refine ⟨n + 1, fun fuel hf k => ?_⟩
    obtain ⟨g, rfl⟩ : ∃ g, fuel = g + 1 := ⟨fuel - 1, by omega⟩
    simp only [StmtNode.unparseFuel]
    simp [StmtNode.unparse, hn g (by omega) 0]
  | .ofDecl d => by
    obtain ⟨n, hn⟩ := declNode_unparseFuel_total d
    refine ⟨n + 1, fun fuel hf k => ?_⟩
    obtain ⟨g, rfl⟩ : ∃ g, fuel = g + 1 := ⟨fuel - 1, by omega⟩
    simp only [StmtNode.unparseFuel]
    simp [StmtNode.unparse, hn g (by omega) k]
theorem declNode_unparseFuel_total : ∀ d : DeclNode, ∃ n, ∀ fuel, n ≤ fuel → ∀ k,
    d.unparseFuel fuel k = some (d.unparse k)
  | .ClassDeclNode name ds => by
    obtain ⟨m, hm⟩ := decls_unparseFuel_total ds
    refine ⟨m + 2, fun fuel hf k => ?_⟩
    obtain ⟨g, rfl⟩ : ∃ g, fuel = g + 2 := ⟨fuel - 2, by omega⟩
    have hb := loopFuel_decls (fun decl => DeclNode.unparseFuel (g + 1) decl (k + 1)) ds
      (k + 1) (fun d h => hm (g + 1) (by omega) d h (k + 1))
    simp only [DeclNode.unparseFuel]
    simp [DeclNode.unparse, idNode_unparseFuel_eq, hb]
  | .VarDeclNode myID myType none => by
    obtain ⟨n, hn⟩ := typeNode_unparseFuel_total myType
    refine ⟨n + 2, fun fuel hf k => ?_⟩
    obtain ⟨g, rfl⟩ : ∃ g, fuel = g + 2 := ⟨fuel - 2, by omega⟩
    simp only [DeclNode.unparseFuel]
    simp [DeclNode.unparse, idNode_unparseFuel_eq, hn (g + 1) (by omega) 0]
  | .VarDeclNode myID myType (some exp) => by
    obtain ⟨n, hn⟩ := typeNode_unparseFuel_total myType
    obtain ⟨m, hm⟩ := expNode_unparseFuel_total exp
    refine ⟨n + m + 2, fun fuel hf k => ?_⟩
    obtain ⟨g, rfl⟩ : ∃ g, fuel = g + 2 := ⟨fuel - 2, by omega⟩
    simp only [DeclNode.unparseFuel]
    simp [DeclNode.unparse, idNode_unparseFuel_eq, hn (g + 1) (by omega) 0,
      (hm (g + 1) (by omega) 0).1]
  | .ofFormal formal => by
    obtain ⟨n, hn⟩ := formalDeclNode_unparseFuel_total formal
    refine ⟨n + 1, fun fuel hf k => ?_⟩
    obtain ⟨g, rfl⟩ : ∃ g, fuel = g + 1 := ⟨fuel - 1, by omega⟩
    simp only [DeclNode.unparseFuel]
    simp [DeclNode.unparse, hn g (by omega) k]
  | .FnDeclNode type id ps ss => by
    obtain ⟨n, hn⟩ := typeNode_unparseFuel_total type
    obtain ⟨m, hm⟩ := formals_unparseFuel_total ps
    obtain ⟨p, hp⟩ := stmts_unparseFuel_total ss
    refine ⟨n + m + p + 2, fun fuel hf k => ?_⟩
    obtain ⟨g, rfl⟩ : ∃ g, fuel = g + 2 := ⟨fuel - 2, by omega⟩
    have hb := loopFuel_stmts (fun stmt => StmtNode.unparseFuel (g + 1) stmt (k + 1)) ss
      (k + 1) (fun s h => hp (g + 1) (by omega) s h (k + 1))
    have hq := commaLoopFuel_formals (fun decl => FormalDeclNode.unparseFuel (g + 1) decl 0)
      ps true (fun d h => hm (g + 1) (by omega) d h 0)
    simp only [DeclNode.unparseFuel]
    simp [DeclNode.unparse, idNode_unparseFuel_eq, hn (g + 1) (by omega) 0, hb, hq]
theorem stmts_unparseFuel_total : ∀ ss : List StmtNode, ∃ n, ∀ fuel, n ≤ fuel →
    ∀ s ∈ ss, ∀ k, s.unparseFuel fuel k = some (s.unparse k)
  | [] => ⟨0, by simp⟩
  | s :: rest => by
    obtain ⟨n, hn⟩ := stmts_unparseFuel_total rest
    obtain ⟨m, hm⟩ := stmtNode_unparseFuel_total s
    refine ⟨n + m, fun fuel hf x hx k => ?_⟩
    rcases List.mem_cons.1 hx with rfl | hx
    · exact hm fuel (by omega) k
    · exact hn fuel (by omega) x hx k
theorem decls_unparseFuel_total : ∀ ds : List DeclNode, ∃ n, ∀ fuel, n ≤ fuel →
    ∀ d ∈ ds, ∀ k, d.unparseFuel fuel k = some (d.unparse k)
  | [] => ⟨0, by simp⟩
  | d :: rest => by
    obtain ⟨n, hn⟩ := decls_unparseFuel_total rest
    obtain ⟨m, hm⟩ := declNode_unparseFuel_total d
    refine ⟨n + m, fun fuel hf x hx k => ?_⟩
    rcases List.mem_cons.1 hx with rfl | hx
    · exact hm fuel (by omega) k
    · exact hn fuel (by omega) x hx k
end

theorem programNode_unparseFuel_total (p : ProgramNode) :
    ∃ n, ∀ fuel, n ≤ fuel → ∀ k, p.unparseFuel fuel k = some (p.unparse k) := by
  obtain ⟨m, hm⟩ := decls_unparseFuel_total p.myGlobals
  refine ⟨m + 1, fun fuel hf k => ?_⟩
  obtain ⟨g, rfl⟩ : ∃ g, fuel = g + 1 := ⟨fuel - 1, by omega⟩
  simp only [ProgramNode.unparseFuel, ProgramNode.unparse]
  exact loopFuel_decls _ _ k (fun d h => hm g (by omega) d h k)

/-- C19, as the claim states it, fails: rendering the negation of the literal 5 calls
`nestedUnparse` on the literal, which calls `unparse` on the literal itself, and a node
is not a strict sub-tree of itself; so not every call is on a strict sub-tree of its
argument. The rendering of the literal as an operand accordingly takes two nested calls
although the literal has no child. -/
theorem C19_strict_subtree_counterexample :
    (Method.nestedUnparse, Node.exp (.IntLitNode 5))
        ∈ Node.calls .unparse (Node.exp (.NegNode (.IntLitNode 5)))
    ∧ (Method.unparse, Node.exp (.IntLitNode 5))
        ∈ Node.calls .nestedUnparse (Node.exp (.IntLitNode 5))
    ∧ ¬ StrictSubtree (Node.exp (.IntLitNode 5)) (Node.exp (.IntLitNode 5))
    ∧ ¬ (∀ (m : Method) (n : Node) (c : Method × Node),
          c ∈ Node.calls m n → StrictSubtree c.2 n)
    ∧ (ExpNode.IntLitNode 5).nestedUnparseFuel 1 0 = none
    ∧ (ExpNode.IntLitNode 5).nestedUnparseFuel 2 0 = some "5" := by
  have h1 : (Method.unparse, Node.exp (.IntLitNode 5))
      ∈ Node.calls .nestedUnparse (Node.exp (.IntLitNode 5)) := by
    simp [Node.calls]
  have h2 : ¬ StrictSubtree (Node.exp (.IntLitNode 5)) (Node.exp (.IntLitNode 5)) :=
    not_strictSubtree_of_children_nil _ _ rfl
  refine ⟨by simp [Node.calls, ExpNode.unparseCalls], h1, h2, fun h => h2 (h _ _ _ h1),
    by decide, by decide⟩

/-- C19, amended: rendering is total. Every call an `unparse` method makes is on a child
of its node, so on a strict sub-tree of its argument, and every `nestedUnparse` method
calls `unparse` on its own node. For every program, declaration, statement, expression
(in both positions) and type there is a depth of nested calls within which the rendering
completes at every indentation depth, and its result is the rendered text; the counter
is what stops the bounded renderer otherwise, as with no fuel at all, or with two units
for `-5` written as a negation, which needs three. -/
theorem C19_unparse_total :
    (∀ (n : Node) (c : Method × Node), c ∈ Node.calls .unparse n →
      c.2 ∈ n.children ∧ StrictSubtree c.2 n)
    ∧ (∀ (n : Node) (c : Method × Node), c ∈ Node.calls .nestedUnparse n →
      c = (Method.unparse, n))
    ∧ (∀ p : ProgramNode, ∃ n, ∀ fuel k, p.unparseFuel (n + fuel) k = some (p.unparse k))
    ∧ (∀ d : DeclNode, ∃ n, ∀ fuel k, d.unparseFuel (n + fuel) k = some (d.unparse k))
    ∧ (∀ s : StmtNode, ∃ n, ∀ fuel k, s.unparseFuel (n + fuel) k = some (s.unparse k))
    ∧ (∀ e : ExpNode, ∃ n, ∀ fuel k,
        e.unparseFuel (n + fuel) k = some (e.unparse k)
          ∧ e.nestedUnparseFuel (n + fuel) k = some (e.nestedUnparse k))
    ∧ (∀ t : TypeNode, ∃ n, ∀ fuel k, t.unparseFuel (n + fuel) k = some (t.unparse k))
    ∧ (∀ (p : ProgramNode) (k : Nat), p.unparseFuel 0 k = none)
    ∧ (ExpNode.NegNode (.IntLitNode 5)).unparseFuel 2 0 = none
    ∧ (ExpNode.NegNode (.IntLitNode 5)).unparseFuel 3 0 = some "-5" := by
  refine ⟨fun n c h => ?_, nestedUnparse_calls_self, fun p => ?_, fun d => ?_, fun s => ?_,
    fun e => ?_, fun t => ?_, fun p k => rfl, by decide, by decide⟩
  · have hc := unparse_calls_children n c h
    exact ⟨hc, strictSubtree_of_mem_children _ _ hc⟩
  · obtain ⟨n, hn⟩ := programNode_unparseFuel_total p
    exact ⟨n, fun fuel k => hn (n + fuel) (by omega) k⟩
  · obtain ⟨n, hn⟩ := declNode_unparseFuel_total d
    exact ⟨n, fun fuel k => hn (n + fuel) (by omega) k⟩
  · obtain ⟨n, hn⟩ := stmtNode_unparseFuel_total s
    exact ⟨n, fun fuel k => hn (n + fuel) (by omega) k⟩
  · obtain ⟨n, hn⟩ := expNode_unparseFuel_total e
    refine ⟨n + 1, fun fuel k => ⟨(hn (n + 1 + fuel) (by omega) k).1, ?_⟩⟩
    have h := (hn (n + fuel) (by omega) k).2
    rwa [show n + fuel + 1 = n + 1 + fuel by omega] at h
  · obtain ⟨n, hn⟩ := typeNode_unparseFuel_total t
    exact ⟨n, fun fuel k => hn (n + fuel) (by omega) k⟩

/-- C19 at the two calls made for `-5` written as a negation: `unparse` on the negation
calls `nestedUnparse` on its child, the literal, and `nestedUnparse` on the literal
calls `unparse` on the literal. -/
theorem C19_unparse_total_witness :
    (Method.nestedUnparse, Node.exp (.IntLitNode 5))
        ∈ Node.calls .unparse (Node.exp (.NegNode (.IntLitNode 5)))
    ∧ (Node.exp (.IntLitNode 5) ∈ (Node.exp (.NegNode (.IntLitNode 5))).children
      ∧ StrictSubtree (Node.exp (.IntLitNode 5)) (Node.exp (.NegNode (.IntLitNode 5))))
    ∧ (Method.unparse, Node.exp (.IntLitNode 5))
        ∈ Node.calls .nestedUnparse (Node.exp (.IntLitNode 5))
    ∧ (Method.unparse, Node.exp (.IntLitNode 5))
        = (Method.unparse, Node.exp (.IntLitNode 5)) :=
  ⟨by simp [Node.calls, ExpNode.unparseCalls],
    C19_unparse_total.1 (Node.exp (.NegNode (.IntLitNode 5)))
      (Method.nestedUnparse, Node.exp (.IntLitNode 5))
      (by simp [Node.calls, ExpNode.unparseCalls]),
    by simp [Node.calls],
    C19_unparse_total.2.1 (Node.exp (.IntLitNode 5))
      (Method.unparse, Node.exp (.IntLitNode 5)) (by simp [Node.calls])⟩

/-! ## Construction of declarations -/

/-- C17: constructing a variable declaration fails exactly when the identifier or the
type is absent; with both present it yields the node whatever the initializer is, absent
included, and a formal built from a present identifier and type is built, by way of a
variable declaration whose initializer is absent. -/
theorem C17_varDecl_construct :
    (∀ (inID : Option IDNode) (inType : Option TypeNode) (expIn : Option ExpNode),
      VarDeclNode.construct inID inType expIn = none ↔ (inID = none ∨ inType = none))
    ∧ (∀ (id : IDNode) (t : TypeNode) (expIn : Option ExpNode),
      VarDeclNode.construct (some id) (some t) expIn = some (DeclNode.VarDeclNode id t expIn))
    ∧ (∀ (id : IDNode) (t : TypeNode),
      VarDeclNode.construct (some id) (some t) none = some (DeclNode.VarDeclNode id t none)
        ∧ FormalDeclNode.construct (some id) (some t) = some (FormalDeclNode.mk id t)) := by
  refine ⟨fun inID inType expIn => ?_, fun id t expIn => rfl, fun id t => ⟨rfl, rfl⟩⟩
  cases inID <;> cases inType <;> simp [VarDeclNode.construct]

/-- C18, at the failing inputs: the constructors of a function declaration and of a class
declaration return a node when the name or the return type is absent, and the node holds
the absent child; the constructor of a variable declaration fails on the same absence. -/
theorem C18_fnDecl_classDecl_construct_absent :
    FnDeclNode.construct none (some ⟨"f"⟩) [] []
        = some (FnDeclFields.mk none (some ⟨"f"⟩) [] [])
    ∧ FnDeclNode.construct (some .IntTypeNode) none [] []
        = some (FnDeclFields.mk (some .IntTypeNode) none [] [])
    ∧ ClassDeclNode.construct none [] = some (ClassDeclFields.mk none [])
    ∧ VarDeclNode.construct none (some .IntTypeNode) none = none
    ∧ VarDeclNode.construct (some ⟨"x"⟩) none none = none :=
  ⟨rfl, rfl, rfl, rfl, rfl⟩

/-! ## Balanced parentheses -/

theorem balanced_iff_parenFromTo (t : List Char) : Balanced t ↔ ParenFromTo 0 0 t := by
  simp [Balanced, ParenFromTo]

theorem parenFromTo_of_noParen (d : Nat) (t : List Char)
    (h : ∀ c ∈ t, c ≠ '(' ∧ c ≠ ')') : ParenFromTo d d t := by
  have hc : ∀ p : List Char, p <+: t → p.count '(' = 0 ∧ p.count ')' = 0 := by
    intro p hp
    constructor
    · exact List.count_eq_zero.2 (fun hm => (h _ (hp.mem hm)).1 rfl)
    · exact List.count_eq_zero.2 (fun hm => (h _ (hp.mem hm)).2 rfl)
  refine ⟨fun p hp => ?_, ?_⟩
  · have := hc p hp
    omega
  · have := hc t (List.prefix_refl t)
    omega

theorem parenFromTo_append (d d' d'' : Nat) (a b : List Char)
    (ha : ParenFromTo d d' a) (hb : ParenFromTo d' d'' b) : ParenFromTo d d'' (a ++ b) := by
  refine ⟨fun p hp => ?_, ?_⟩
  · rcases List.prefix_or_prefix_of_prefix hp (List.prefix_append a b) with h | h
    · exact ha.1 p h
    · obtain ⟨q, rfl⟩ := h
      have hq := hb.1 q ((List.prefix_append_right_inj a).1 hp)
      have e := ha.2
      simp only [List.count_append]
      omega
  · have e1 := ha.2
    have e2 := hb.2
    simp only [List.count_append]
    omega

theorem parenFromTo_open (d : Nat) : ParenFromTo d (d + 1) ['('] := by
  refine ⟨fun p hp => ?_, by simp⟩
  rcases List.prefix_cons_iff.1 hp with rfl | ⟨t, rfl, ht⟩
  · simp
  · rw [List.prefix_nil] at ht
    subst ht
    simp

theorem parenFromTo_close (d : Nat) : ParenFromTo (d + 1) d [')'] := by
  refine ⟨fun p hp => ?_, by simp⟩
  rcases List.prefix_cons_iff.1 hp with rfl | ⟨t, rfl, ht⟩
  · simp
  · rw [List.prefix_nil] at ht
    subst ht
    simp

theorem parenFromTo_shift (d d' k : Nat) (t : List Char) (h : ParenFromTo d d' t) :
    ParenFromTo (d + k) (d' + k) t := by
  refine ⟨fun p hp => ?_, ?_⟩
  · have := h.1 p hp
    omega
  · have := h.2
    omega

theorem balanced_append (a b : List Char) (ha : Balanced a) (hb : Balanced b) :
    Balanced (a ++ b) := by
  rw [balanced_iff_parenFromTo] at *
  exact parenFromTo_append 0 0 0 a b ha hb

theorem balanced_wrap (t : List Char) (h : Balanced t) : Balanced ('(' :: (t ++ [')'])) := by
  rw [balanced_iff_parenFromTo] at *
  have h1 := parenFromTo_shift 0 0 1 t h
  have h2 := parenFromTo_append _ _ _ _ _ h1 (parenFromTo_close 0)
  exact parenFromTo_append _ _ _ _ _ (parenFromTo_open 0) h2

theorem balanced_of_hasNoParen (s : String) (h : hasNoParen s = true) : Balanced s.data := by
  rw [balanced_iff_parenFromTo]
  apply parenFromTo_of_noParen
  simpa [hasNoParen] using h

theorem hasNoParen_toString_int (v : Int) : hasNoParen (toString v) = true := by
  simp only [hasNoParen, List.all_eq_true]
  intro c hc
  rcases toString_int_chars v c hc with rfl | h
  · decide
  · have h1 : c ≠ '(' := by
      rintro rfl
      exact absurd h (by decide)
    have h2 : c ≠ ')' := by
      rintro rfl
      exact absurd h (by decide)
    simp [h1, h2]

theorem hasNoParen_append (a b : String) :
    hasNoParen (a ++ b) = (hasNoParen a && hasNoParen b) := by
  simp [hasNoParen, List.all_append]

theorem balanced_str_append (a b : String) (ha : Balanced a.data) (hb : Balanced b.data) :
    Balanced (a ++ b).data := by
  rw [String.data_append]
  exact balanced_append _ _ ha hb

theorem balanced_str_wrap (s : String) (h : Balanced s.data) :
    Balanced ("(" ++ s ++ ")").data := by
  have e : ("(" ++ s ++ ")").data = '(' :: (s.data ++ [')']) := by
    simp [String.data_append]
  rw [e]
  exact balanced_wrap _ h

theorem locNode_unparse_hasNoParen (l : LocNode) (i : Nat) (h : l.noParen = true) :
    hasNoParen (l.unparse i) = true := by
  induction l generalizing i with
  | ofID id => exact h
  | MemberFieldExpNode loc name ih =>
    simp only [LocNode.noParen, Bool.and_eq_true] at h
    have hn : hasNoParen name.name = true := h.2
    simp +decide [LocNode.unparse, IDNode.unparse, hasNoParen_append, ih 0 h.1, hn]

theorem locNode_nestedUnparse_balanced (l : LocNode) (i : Nat) (h : l.noParen = true) :
    Balanced (l.nestedUnparse i).data := by
  cases l with
  | ofID id => exact balanced_of_hasNoParen _ h
  | MemberFieldExpNode loc name =>
    rw [LocNode.nestedUnparse]
    exact balanced_str_wrap _ (balanced_of_hasNoParen _ (locNode_unparse_hasNoParen _ 0 h))

mutual
theorem expNode_unparse_balanced : ∀ (e : ExpNode) (i : Nat), e.noParen = true →
    Balanced (e.unparse i).data ∧ Balanced (e.nestedUnparse i).data
  | .CallExpNode f args, i, h => by
    simp only [ExpNode.noParen, Bool.and_eq_true] at h
    have hc : Balanced (f.unparse 0 ++ "(" ++ unparseArgs args true ++ ")").data := by
      have e : f.unparse 0 ++ "(" ++ unparseArgs args true ++ ")"
          = f.unparse 0 ++ ("(" ++ unparseArgs args true ++ ")") := by
        simp [String.append_assoc]
      rw [e]
      exact balanced_str_append _ _
        (balanced_of_hasNoParen _ (locNode_unparse_hasNoParen f 0 h.1))
        (balanced_str_wrap _ (unparseArgs_balanced args true h.2))
    constructor
    · simp only [ExpNode.unparse]
      exact hc
    · simp only [ExpNode.nestedUnparse, ExpNode.unparse]
      exact hc
  | .FalseNode, i, _ | .TrueNode, i, _ | .MagicNode, i, _ => by
    constructor
    · simp only [ExpNode.unparse]
      exact balanced_of_hasNoParen _ (by decide)
    · simp only [ExpNode.nestedUnparse, ExpNode.unparse]
      exact balanced_of_hasNoParen _ (by decide)
  | .IntLitNode v, i, _ => by
    constructor
    · simp only [ExpNode.unparse]
      exact balanced_of_hasNoParen _ (hasNoParen_toString_int v)
    · simp only [ExpNode.nestedUnparse, ExpNode.unparse]
      exact balanced_of_hasNoParen _ (hasNoParen_toString_int v)
  | .StrLitNode s, i, h => by
    simp only [ExpNode.noParen] at h
    constructor
    · simp only [ExpNode.unparse]
      exact balanced_of_hasNoParen _ h
    · simp only [ExpNode.nestedUnparse, ExpNode.unparse]
      exact balanced_of_hasNoParen _ h
  | .ofLoc l, i, h => by
    simp only [ExpNode.noParen] at h
    constructor
    · simp only [ExpNode.unparse]
      exact balanced_of_hasNoParen _ (locNode_unparse_hasNoParen l i h)
    · simp only [ExpNode.nestedUnparse]
      exact locNode_nestedUnparse_balanced l i h
  | .NegNode e, i, h | .NotNode e, i, h => by
    simp only [ExpNode.noParen] at h
    have he := (expNode_unparse_balanced e 0 h).2
    constructor
    · simp only [ExpNode.unparse]
      exact balanced_str_append _ _ (balanced_of_hasNoParen _ (by decide)) he
    · simp only [ExpNode.nestedUnparse, ExpNode.unparse]
      exact balanced_str_wrap _
        (balanced_str_append _ _ (balanced_of_hasNoParen _ (by decide)) he)
  | .AndNode l r, i, h | .DivideNode l r, i, h | .EqualsNode l r, i, h
  | .GreaterEqNode l r, i, h | .GreaterNode l r, i, h | .LessNode l r, i, h
  | .LessEqNode l r, i, h | .MinusNode l r, i, h | .NotEqualsNode l r, i, h
  | .OrNode l r, i, h | .PlusNode l r, i, h | .TimesNode l r, i, h => by
    simp only [ExpNode.noParen, Bool.and_eq_true] at h
    have hl := (expNode_unparse_balanced l 0 h.1).2
    have hr := (expNode_unparse_balanced r 0 h.2).2
    constructor
    · simp only [ExpNode.unparse]
      exact balanced_str_append _ _
        (balanced_str_append _ _ hl (balanced_of_hasNoParen _ (by decide))) hr
    · simp only [ExpNode.nestedUnparse, ExpNode.unparse]
      exact balanced_str_wrap _ (balanced_str_append _ _
        (balanced_str_append _ _ hl (balanced_of_hasNoParen _ (by decide))) hr)
theorem unparseArgs_balanced : ∀ (args : List ExpNode) (firstArg : Bool),
    argsNoParen args = true → Balanced (unparseArgs args firstArg).data
  | [], _, _ => by
    simp only [unparseArgs]
    exact balanced_of_hasNoParen _ (by decide)
  | a :: rest, firstArg, h => by
    simp only [argsNoParen, Bool.and_eq_true] at h
    have ha := (expNode_unparse_balanced a 0 h.1).1
    have hr := unparseArgs_balanced rest false h.2
    simp only [unparseArgs]
    refine balanced_str_append _ _ (balanced_str_append _ _ ?_ ha) hr
    cases firstArg <;> exact balanced_of_hasNoParen _ (by decide)
end

/-- Two examples of `Balanced`: the text `f(1, (2))` is balanced, the text `)(` is not. -/
theorem balanced_examples : Balanced "f(1, (2))".data ∧ ¬ Balanced ")(".data := by
  constructor
  · have h2 : Balanced "(2)".data := balanced_str_wrap "2" (balanced_of_hasNoParen _ (by decide))
    have h1 : Balanced ("1, " ++ "(2)").data :=
      balanced_str_append _ _ (balanced_of_hasNoParen _ (by decide)) h2
    exact balanced_str_append "f" _ (balanced_of_hasNoParen _ (by decide))
      (balanced_str_wrap _ h1)
  · intro h
    have := h.1 [')'] ⟨['('], rfl⟩
    simp at this

/-- C21: when no identifier name and no string literal of an expression contains a
parenthesis, its top-level rendering and its operand-position rendering have balanced
parentheses: every prefix has at least as many `(` as `)` and the whole text has equally
many. -/
theorem C21_unparse_balanced (e : ExpNode) (i : Nat) (h : e.noParen = true) :
    Balanced (e.unparse i).data ∧ Balanced (e.nestedUnparse i).data :=
  expNode_unparse_balanced e i h

/-- C21 for `f(-(a--b), x) + (1 * 2)`. -/
theorem C21_unparse_balanced_witness :
    (ExpNode.PlusNode
        (.CallExpNode (.ofID ⟨"f"⟩)
          [.NegNode (.ofLoc (.MemberFieldExpNode (.ofID ⟨"a"⟩) ⟨"b"⟩)), .StrLitNode "x"])
        (.TimesNode (.IntLitNode 1) (.IntLitNode 2))).noParen = true
    ∧ (Balanced ((ExpNode.PlusNode
        (.CallExpNode (.ofID ⟨"f"⟩)
          [.NegNode (.ofLoc (.MemberFieldExpNode (.ofID ⟨"a"⟩) ⟨"b"⟩)), .StrLitNode "x"])
        (.TimesNode (.IntLitNode 1) (.IntLitNode 2))).unparse 0).data
      ∧ Balanced ((ExpNode.PlusNode
        (.CallExpNode (.ofID ⟨"f"⟩)
          [.NegNode (.ofLoc (.MemberFieldExpNode (.ofID ⟨"a"⟩) ⟨"b"⟩)), .StrLitNode "x"])
        (.TimesNode (.IntLitNode 1) (.IntLitNode 2))).nestedUnparse 0).data) :=
  ⟨by decide, C21_unparse_balanced _ 0 (by decide)⟩

/-! ## Injectivity -/

/-- C22: top-level rendering is not injective on expressions, even without identifiers
and string literals: the negation of the literal 5 and the literal -5 are different trees
and both render as `-5`; the negation of the literal -5 renders as `--5`. -/
theorem C22_unparse_not_injective :
    ExpNode.NegNode (.IntLitNode 5) ≠ ExpNode.IntLitNode (-5)
    ∧ (ExpNode.NegNode (.IntLitNode 5)).unparse 0 = "-5"
    ∧ (ExpNode.IntLitNode (-5)).unparse 0 = "-5"
    ∧ (ExpNode.NegNode (.IntLitNode (-5))).unparse 0 = "--5"
    ∧ ¬ Function.Injective (fun e : ExpNode => e.unparse 0) := by
  have h1 : (ExpNode.NegNode (.IntLitNode 5)).unparse 0 = "-5" := by
    simp [ExpNode.unparse, ExpNode.nestedUnparse]
    decide
  have h2 : (ExpNode.IntLitNode (-5)).unparse 0 = "-5" := by
    simp [ExpNode.unparse]
    decide
  have h3 : (ExpNode.NegNode (.IntLitNode (-5))).unparse 0 = "--5" := by
    simp [ExpNode.unparse, ExpNode.nestedUnparse]
    decide
  have hne : ExpNode.NegNode (.IntLitNode 5) ≠ ExpNode.IntLitNode (-5) := by
    intro h
    cases h
  refine ⟨hne, h1, h2, h3, fun hinj => hne (hinj ?_)⟩
  show (ExpNode.NegNode (.IntLitNode 5)).unparse 0 = (ExpNode.IntLitNode (-5)).unparse 0
  rw [h1, h2]

/-! ## The depth argument of expressions and types -/

theorem locNode_unparse_depth (l : LocNode) (i j : Nat) : l.unparse i = l.unparse j := by
  cases l <;> simp [LocNode.unparse, IDNode.unparse]

theorem locNode_nestedUnparse_depth (l : LocNode) (i j : Nat) :
    l.nestedUnparse i = l.nestedUnparse j := by
  cases l <;> simp [LocNode.nestedUnparse, IDNode.nestedUnparse]

theorem typeNode_unparse_depth (t : TypeNode) (i j : Nat) : t.unparse i = t.unparse j := by
  induction t with
  | IntTypeNode | BoolTypeNode | VoidTypeNode => rfl
  | ClassTypeNode id => rfl
  | PerfectTypeNode type ih => simp [TypeNode.unparse, ih]

/-- C23: the rendering of an expression, in both positions, and of a type does not depend
on the depth; so the rules that forward their depth to an identifier or to a wrapped type
(class name, class-reference type, qualifier type) write what they would write with
depth 0. -/
theorem C23_depth_irrelevant :
    (∀ (e : ExpNode) (i j : Nat),
      e.unparse i = e.unparse j ∧ e.nestedUnparse i = e.nestedUnparse j)
    ∧ (∀ (t : TypeNode) (i j : Nat), t.unparse i = t.unparse j)
    ∧ (∀ (n : IDNode) (i j : Nat),
      n.unparse i = n.unparse j ∧ n.nestedUnparse i = n.nestedUnparse j)
    ∧ (∀ (name : IDNode) (ds : List DeclNode) (k : Nat),
      (DeclNode.ClassDeclNode name ds).unparse k
        = doIndent k ++ name.unparse 0 ++ " : class \x7b\n" ++ unparseDecls ds (k + 1)
            ++ doIndent k ++ "\x7d;\n")
    ∧ (∀ (id : IDNode) (k : Nat), (TypeNode.ClassTypeNode id).unparse k = id.unparse 0)
    ∧ (∀ (t : TypeNode) (k : Nat),
      (TypeNode.PerfectTypeNode t).unparse k = "perfect " ++ t.unparse 0) := by
  refine ⟨fun e i j => ?_, typeNode_unparse_depth, fun n i j => ⟨rfl, rfl⟩,
    fun name ds k => ?_, fun id k => rfl, fun t k => ?_⟩
  · cases e <;>
      simp [ExpNode.unparse, ExpNode.nestedUnparse, locNode_unparse_depth _ i j,
        locNode_nestedUnparse_depth _ i j]
  · simp [DeclNode.unparse, IDNode.unparse]
  · simp [TypeNode.unparse, typeNode_unparse_depth t k 0]

end drewno_mars
